import Mathlib

/-!
Verification of the 9router request-handling core against its specification.

Each JavaScript function under scrutiny is embedded shallowly: JS values are
modelled by the inductive `Json`, JS objects by association lists preserving
insertion order, JSON numbers by `Int` (usage pricing by `Rat`), in-place
mutation by pure state passing, and exceptions by `Option` results.  Engine
builtins (TextDecoder, JSON.parse) appear as explicit function parameters
where a property quantifies over their behaviour.
-/

namespace NineRouter

/-- A JSON/JS value tree.  JS objects keep member insertion order; numbers are
modelled as integers (the schemas and counters under verification only carry
integral numbers). -/
inductive Json where
  | null
  | bool (b : Bool)
  | num (n : Int)
  | str (s : String)
  | arr (elems : List Json)
  | obj (members : List (String × Json))
deriving Repr, Inhabited

mutual

/-- Structural equality test on `Json` (the nested inductive defeats the
derive handler, so the instance is built by hand). -/
def Json.beq : Json → Json → Bool
  | .null, .null => true
  | .bool a, .bool b => a == b
  | .num a, .num b => a == b
  | .str a, .str b => a == b
  | .arr as, .arr bs => Json.beqList as bs
  | .obj as, .obj bs => Json.beqMembers as bs
  | _, _ => false

/-- Elementwise equality test on `Json` arrays. -/
def Json.beqList : List Json → List Json → Bool
  | [], [] => true
  | a :: as, b :: bs => Json.beq a b && Json.beqList as bs
  | _, _ => false

/-- Memberwise equality test on `Json` object member lists. -/
def Json.beqMembers : List (String × Json) → List (String × Json) → Bool
  | [], [] => true
  | (k1, v1) :: as, (k2, v2) :: bs => k1 == k2 && Json.beq v1 v2 && Json.beqMembers as bs
  | _, _ => false

end

mutual

/-- `Json.beq` decides propositional equality. -/
theorem Json.beq_iff : ∀ (a b : Json), Json.beq a b = true ↔ a = b
  | .null, b => by cases b <;> simp [Json.beq]
  | .bool x, b => by cases b <;> simp [Json.beq]
  | .num x, b => by cases b <;> simp [Json.beq]
  | .str x, b => by cases b <;> simp [Json.beq]
  | .arr as, b => by
      cases b with
      | arr bs => have h := Json.beqList_iff as bs; simp [Json.beq, h]
      | null => simp [Json.beq]
      | bool y => simp [Json.beq]
      | num y => simp [Json.beq]
      | str y => simp [Json.beq]
      | obj ns => simp [Json.beq]
  | .obj ms, b => by
      cases b with
      | obj ns => have h := Json.beqMembers_iff ms ns; simp [Json.beq, h]
      | null => simp [Json.beq]
      | bool y => simp [Json.beq]
      | num y => simp [Json.beq]
      | str y => simp [Json.beq]
      | arr bs => simp [Json.beq]

/-- `Json.beqList` decides equality of arrays. -/
theorem Json.beqList_iff : ∀ (as bs : List Json), Json.beqList as bs = true ↔ as = bs
  | [], [] => by simp [Json.beqList]
  | [], _ :: _ => by simp [Json.beqList]
  | _ :: _, [] => by simp [Json.beqList]
  | a :: as, b :: bs => by
      have h1 := Json.beq_iff a b
      have h2 := Json.beqList_iff as bs
      simp [Json.beqList, h1, h2]

/-- `Json.beqMembers` decides equality of member lists. -/
theorem Json.beqMembers_iff :
    ∀ (as bs : List (String × Json)), Json.beqMembers as bs = true ↔ as = bs
  | [], [] => by simp [Json.beqMembers]
  | [], _ :: _ => by simp [Json.beqMembers]
  | _ :: _, [] => by simp [Json.beqMembers]
  | (k1, v1) :: as, (k2, v2) :: bs => by
      have h1 := Json.beq_iff v1 v2
      have h2 := Json.beqMembers_iff as bs
      simp [Json.beqMembers, h1, h2]

end

instance : BEq Json := ⟨Json.beq⟩

instance : DecidableEq Json := fun a b =>
  decidable_of_iff (Json.beq a b = true) (Json.beq_iff a b)

instance : LawfulBEq Json where
  eq_of_beq h := (Json.beq_iff _ _).mp h
  rfl := (Json.beq_iff _ _).mpr rfl

/-- JS truthiness of a value (`!!v`). -/
def Json.truthy : Json → Bool
  | .null => false
  | .bool b => b
  | .num n => n != 0
  | .str s => !s.isEmpty
  | .arr _ => true
  | .obj _ => true

/-- First-match lookup in an ordered association list (a JS property read). -/
def aget {α : Type} (ms : List (String × α)) (k : String) : Option α :=
  match ms with
  | [] => none
  | (k2, v) :: rest => if k2 = k then some v else aget rest k

/-- A JS property write: replace the first member with the key in place,
otherwise append the member at the end (JS insertion order). -/
def aset {α : Type} (ms : List (String × α)) (k : String) (v : α) :
    List (String × α) :=
  match ms with
  | [] => [(k, v)]
  | (k2, v2) :: rest => if k2 = k then (k2, v) :: rest else (k2, v2) :: aset rest k v

/-- JS `delete obj[k]` (keys are unique in a live JS object). -/
def adel {α : Type} (ms : List (String × α)) (k : String) : List (String × α) :=
  ms.filter (fun kv => kv.1 != k)

/-- Canonical array-index reading of a property key (`"0"`, `"17"`, …); JS
array indexing with a non-canonical numeric string yields undefined. -/
def canonIndex (k : String) : Option Nat :=
  match k.toNat? with
  | some n => if toString n = k then some n else none
  | none => none

/-- JS property read on an arbitrary value: objects by key, arrays by canonical
index or `length`, strings by character index or `length`; other primitives
have no own properties that the embedded code reads. -/
def Json.get : Json → String → Option Json
  | .obj ms, k => aget ms k
  | .arr es, k =>
      if k = "length" then some (.num es.length)
      else (canonIndex k).bind (fun n => es.get? n)
  | .str s, k =>
      if k = "length" then some (.num s.length)
      else (canonIndex k).bind (fun n => (s.data.get? n).map (fun c => .str (String.mk [c])))
  | _, _ => none

/-! ## In-flight request counter (`trackPendingRequest`, src/src/lib/usageDb.js)

The process-wide `pendingRequests` record holds one integer per model key and
one per (connection, model key); each call bumps the matching counters by ±1,
clamped at zero by `Math.max(0, …)`. -/

/-- One `trackPendingRequest(model, provider, connectionId, started)` call.
A falsy JS `provider` / `connectionId` is modelled by the empty string. -/
structure TrackCall where
  model : String
  provider : String
  connectionId : String
  started : Bool
deriving Repr, DecidableEq

/-- The in-memory `pendingRequests` store of usageDb.js. -/
structure Pending where
  byModel : List (String × Int)
  byAccount : List (String × List (String × Int))
deriving Repr, DecidableEq

/-- The model key used by `trackPendingRequest`:
`provider ? `${model} (${provider})` : model`. -/
def modelKeyOf (c : TrackCall) : String :=
  if c.provider ≠ "" then c.model ++ " (" ++ c.provider ++ ")" else c.model

/-- One counter update: missing keys are initialised to 0, then
`Math.max(0, count + (started ? 1 : -1))` is stored. -/
def bump (old : Option Int) (started : Bool) : Int :=
  max 0 (old.getD 0 + (if started then 1 else -1))

/-- `trackPendingRequest` from usageDb.js as a pure state transformer. -/
def trackPendingRequest (st : Pending) (c : TrackCall) : Pending :=
  let key := modelKeyOf c
  let byModel := aset st.byModel key (bump (aget st.byModel key) c.started)
  let byAccount :=
    if c.connectionId ≠ "" then
      let acct := (aget st.byAccount c.connectionId).getD []
      aset st.byAccount c.connectionId (aset acct key (bump (aget acct key) c.started))
    else st.byAccount
  { byModel := byModel, byAccount := byAccount }

/-- The store after a whole call sequence, starting from the empty record. -/
def runTrack (calls : List TrackCall) : Pending :=
  calls.foldl trackPendingRequest { byModel := [], byAccount := [] }

/-- Stored active count for a model key (0 when the key is absent). -/
def modelCount (st : Pending) (key : String) : Int :=
  (aget st.byModel key).getD 0

/-- Stored active count for a (connection, model key) pair. -/
def acctCount (st : Pending) (cid key : String) : Int :=
  (aget ((aget st.byAccount cid).getD []) key).getD 0

/-- Number of begin calls for a model key. -/
def beginsByModel (calls : List TrackCall) (key : String) : Int :=
  (calls.countP fun c => c.started && (modelKeyOf c == key) : Nat)

/-- Number of end calls for a model key. -/
def endsByModel (calls : List TrackCall) (key : String) : Int :=
  (calls.countP fun c => !c.started && (modelKeyOf c == key) : Nat)

/-- Number of begin calls for a (connection, model key) pair; calls without a
connection id never touch the per-account table. -/
def beginsByAcct (calls : List TrackCall) (cid key : String) : Int :=
  (calls.countP fun c => c.started && (c.connectionId == cid) && (modelKeyOf c == key) : Nat)

/-- Number of end calls for a (connection, model key) pair. -/
def endsByAcct (calls : List TrackCall) (cid key : String) : Int :=
  (calls.countP fun c => !c.started && (c.connectionId == cid) && (modelKeyOf c == key) : Nat)

/-- A call sequence is prefix-balanced when no prefix has more ends than
begins for any model key or any (connection, model key) pair. -/
def PrefixBalanced (calls : List TrackCall) : Prop :=
  (∀ n key, endsByModel (calls.take n) key ≤ beginsByModel (calls.take n) key) ∧
  (∀ n cid key, cid ≠ "" →
    endsByAcct (calls.take n) cid key ≤ beginsByAcct (calls.take n) cid key)

theorem aget_aset_self {α : Type} (l : List (String × α)) (k : String) (v : α) :
    aget (aset l k v) k = some v := by
  induction l with
  | nil => simp [aget, aset]
  | cons kv rest ih =>
      obtain ⟨k2, v2⟩ := kv
      by_cases h : k2 = k <;> simp [aget, aset, h, ih]

theorem aget_aset_ne {α : Type} (l : List (String × α)) (k k2 : String) (v : α)
    (h : k2 ≠ k) : aget (aset l k v) k2 = aget l k2 := by
  have hks : ¬k = k2 := fun hh => h hh.symm
  induction l with
  | nil => simp [aget, aset, hks]
  | cons kv rest ih =>
      obtain ⟨k3, v3⟩ := kv
      by_cases h3 : k3 = k
      · have h32 : ¬k3 = k2 := by rw [h3]; exact hks
        simp [aget, aset, h3, h32, hks]
      · by_cases h32 : k3 = k2 <;> simp [aget, aset, h3, h32, ih, h]

/-- Direction of one call: +1 for a begin, -1 for an end. -/
def dir (c : TrackCall) : Int := if c.started then 1 else -1

theorem modelCount_track (st : Pending) (c : TrackCall) (key : String) :
    modelCount (trackPendingRequest st c) key =
      if modelKeyOf c = key then max 0 (modelCount st key + dir c)
      else modelCount st key := by
  by_cases h : modelKeyOf c = key
  · subst h
    simp [modelCount, trackPendingRequest, aget_aset_self, bump, dir]
  · simp [modelCount, trackPendingRequest, h, aget_aset_ne _ _ _ _ (fun hh => h hh.symm)]

theorem acctCount_track (st : Pending) (c : TrackCall) (cid key : String) :
    acctCount (trackPendingRequest st c) cid key =
      if c.connectionId = cid ∧ cid ≠ "" ∧ modelKeyOf c = key then
        max 0 (acctCount st cid key + dir c)
      else acctCount st cid key := by
  simp only [trackPendingRequest, acctCount]
  by_cases hid : c.connectionId = ""
  · have hcond : ¬(c.connectionId = cid ∧ cid ≠ "" ∧ modelKeyOf c = key) := by
      rintro ⟨h1, h2, h3⟩
      exact h2 (h1 ▸ hid)
    rw [if_neg hcond]
    simp [hid]
  · by_cases hc : c.connectionId = cid
    · subst hc
      by_cases hk : modelKeyOf c = key
      · subst hk
        simp [hid, aget_aset_self, bump, dir]
      · simp [hid, hk, aget_aset_self, aget_aset_ne _ _ _ _ (fun hh => hk hh.symm)]
    · simp [hid, hc, aget_aset_ne _ _ _ _ (fun hh => hc hh.symm)]

theorem beginsByModel_append (calls : List TrackCall) (c : TrackCall) (key : String) :
    beginsByModel (calls ++ [c]) key =
      beginsByModel calls key +
        (if c.started ∧ modelKeyOf c = key then 1 else 0) := by
  by_cases h1 : c.started <;> by_cases h2 : modelKeyOf c = key <;>
    simp [beginsByModel, List.countP_append, List.countP_cons, h1, h2]

theorem endsByModel_append (calls : List TrackCall) (c : TrackCall) (key : String) :
    endsByModel (calls ++ [c]) key =
      endsByModel calls key +
        (if ¬c.started ∧ modelKeyOf c = key then 1 else 0) := by
  by_cases h1 : c.started <;> by_cases h2 : modelKeyOf c = key <;>
    simp [endsByModel, List.countP_append, List.countP_cons, h1, h2]

theorem beginsByAcct_append (calls : List TrackCall) (c : TrackCall) (cid key : String) :
    beginsByAcct (calls ++ [c]) cid key =
      beginsByAcct calls cid key +
        (if c.started ∧ c.connectionId = cid ∧ modelKeyOf c = key then 1 else 0) := by
  by_cases h1 : c.started <;> by_cases h2 : c.connectionId = cid <;>
    by_cases h3 : modelKeyOf c = key <;>
    simp [beginsByAcct, List.countP_append, List.countP_cons, h1, h2, h3]

theorem endsByAcct_append (calls : List TrackCall) (c : TrackCall) (cid key : String) :
    endsByAcct (calls ++ [c]) cid key =
      endsByAcct calls cid key +
        (if ¬c.started ∧ c.connectionId = cid ∧ modelKeyOf c = key then 1 else 0) := by
  by_cases h1 : c.started <;> by_cases h2 : c.connectionId = cid <;>
    by_cases h3 : modelKeyOf c = key <;>
    simp [endsByAcct, List.countP_append, List.countP_cons, h1, h2, h3]

theorem runTrack_append (calls : List TrackCall) (c : TrackCall) :
    runTrack (calls ++ [c]) = trackPendingRequest (runTrack calls) c := by
  simp [runTrack, List.foldl_append]

theorem prefixBalanced_of_append (calls : List TrackCall) (c : TrackCall)
    (h : PrefixBalanced (calls ++ [c])) : PrefixBalanced calls := by
  obtain ⟨h1, h2⟩ := h
  constructor
  · intro n key
    rcases le_or_lt n calls.length with hn | hn
    · have hh := h1 n key
      rwa [List.take_append_of_le_length hn] at hh
    · have hh := h1 calls.length key
      rw [List.take_append_of_le_length (Nat.le_refl _), List.take_length] at hh
      rwa [List.take_of_length_le (Nat.le_of_lt hn)]
  · intro n cid key hcid
    rcases le_or_lt n calls.length with hn | hn
    · have hh := h2 n cid key hcid
      rwa [List.take_append_of_le_length hn] at hh
    · have hh := h2 calls.length cid key hcid
      rw [List.take_append_of_le_length (Nat.le_refl _), List.take_length] at hh
      rwa [List.take_of_length_le (Nat.le_of_lt hn)]

theorem modelCount_runTrack (calls : List TrackCall) (key : String) :
    PrefixBalanced calls →
      modelCount (runTrack calls) key = beginsByModel calls key - endsByModel calls key := by
  induction calls using List.reverseRecOn with
  | nil =>
      intro _
      simp [runTrack, modelCount, aget, beginsByModel, endsByModel]
  | append_singleton calls c ih =>
      intro h
      have hpre := prefixBalanced_of_append calls c h
      have hbal : endsByModel calls key ≤ beginsByModel calls key := by
        have h1 := hpre.1 calls.length key
        rwa [List.take_length] at h1
      have hfull := h.1 (calls.length + 1) key
      rw [List.take_of_length_le (by simp)] at hfull
      rw [beginsByModel_append, endsByModel_append] at hfull
      rw [runTrack_append, modelCount_track, ih hpre, beginsByModel_append,
        endsByModel_append]
      by_cases hk : modelKeyOf c = key
      · by_cases hs : c.started
        · simp only [hk, hs, dir] at hfull ⊢
          simp at hfull ⊢ <;> omega
        · simp only [hk, hs, dir] at hfull ⊢
          simp at hfull ⊢ <;> omega
      · simp only [hk, dir] at hfull ⊢
        simp at hfull ⊢ <;> omega

theorem acctCount_runTrack (calls : List TrackCall) (cid key : String) (hcid : cid ≠ "") :
    PrefixBalanced calls →
      acctCount (runTrack calls) cid key =
        beginsByAcct calls cid key - endsByAcct calls cid key := by
  induction calls using List.reverseRecOn with
  | nil =>
      intro _
      simp [runTrack, acctCount, aget, beginsByAcct, endsByAcct]
  | append_singleton calls c ih =>
      intro h
      have hpre := prefixBalanced_of_append calls c h
      have hbal : endsByAcct calls cid key ≤ beginsByAcct calls cid key := by
        have h1 := hpre.2 calls.length cid key hcid
        rwa [List.take_length] at h1
      have hfull := h.2 (calls.length + 1) cid key hcid
      rw [List.take_of_length_le (by simp)] at hfull
      rw [beginsByAcct_append, endsByAcct_append] at hfull
      rw [runTrack_append, acctCount_track, ih hpre, beginsByAcct_append,
        endsByAcct_append]
      by_cases hk1 : c.connectionId = cid
      · by_cases hk2 : modelKeyOf c = key
        · by_cases hs : c.started
          · simp only [hk1, hk2, hcid, hs, dir] at hfull ⊢
            simp [hcid] at hfull ⊢ <;> omega
          · simp only [hk1, hk2, hcid, hs, dir] at hfull ⊢
            simp [hcid] at hfull ⊢ <;> omega
        · simp only [hk1, hk2, hcid, dir] at hfull ⊢
          simp [hcid] at hfull ⊢ <;> omega
      · simp only [hk1, dir] at hfull ⊢
        simp [hcid] at hfull ⊢ <;> omega

theorem counts_nonneg (calls : List TrackCall) (key cid : String) :
    0 ≤ modelCount (runTrack calls) key ∧ 0 ≤ acctCount (runTrack calls) cid key := by
  induction calls using List.reverseRecOn with
  | nil => simp [runTrack, modelCount, acctCount, aget]
  | append_singleton calls c ih =>
      obtain ⟨ih1, ih2⟩ := ih
      rw [runTrack_append]
      refine ⟨?_, ?_⟩
      · rw [modelCount_track]
        by_cases hc : modelKeyOf c = key
        · rw [if_pos hc]; exact le_max_left 0 _
        · rwa [if_neg hc]
      · rw [acctCount_track]
        by_cases hc : c.connectionId = cid ∧ cid ≠ "" ∧ modelKeyOf c = key
        · rw [if_pos hc]; exact le_max_left 0 _
        · rwa [if_neg hc]

/-- C7 (counterexample): as stated, the claim quantifies over every finite call
sequence, but a single end call without a matching begin is clamped to 0 by
`Math.max`, so begins − ends = −1 differs from the stored count 0. -/
theorem C7_counter_clamp_counterexample :
    ¬(beginsByModel [⟨"m", "p", "c", false⟩] "m (p)" -
        endsByModel [⟨"m", "p", "c", false⟩] "m (p)" =
      modelCount (runTrack [⟨"m", "p", "c", false⟩]) "m (p)") := by
  decide

/-- C7 (amended): for every prefix-balanced call sequence (no prefix has more
ends than begins for any key), the stored count equals begins − ends for every
model key and every (connection, model) key; and with or without balance every
stored count is ≥ 0, since updates are clamped by `Math.max(0, …)`. -/
theorem C7_inflight_counter (calls : List TrackCall) (hbal : PrefixBalanced calls) :
    (∀ key, modelCount (runTrack calls) key =
        beginsByModel calls key - endsByModel calls key) ∧
    (∀ cid key, cid ≠ "" → acctCount (runTrack calls) cid key =
        beginsByAcct calls cid key - endsByAcct calls cid key) ∧
    (∀ key cid, 0 ≤ modelCount (runTrack calls) key ∧
        0 ≤ acctCount (runTrack calls) cid key) := by
  refine ⟨fun key => modelCount_runTrack calls key hbal,
    fun cid key hcid => acctCount_runTrack calls cid key hcid hbal,
    fun key cid => counts_nonneg calls key cid⟩

/-- C7 witness: a single begin call is prefix-balanced and the theorem applies
to it, giving stored count = 1 − 0 for its model key. -/
theorem C7_inflight_counter_witness :
    modelCount (runTrack [⟨"m", "p", "c", true⟩]) "m (p)" =
      beginsByModel [⟨"m", "p", "c", true⟩] "m (p)" -
        endsByModel [⟨"m", "p", "c", true⟩] "m (p)" := by
  have hbal : PrefixBalanced [⟨"m", "p", "c", true⟩] := by
    constructor
    · intro n key
      match n with
      | 0 => simp [beginsByModel, endsByModel]
      | n + 1 =>
          simp [beginsByModel, endsByModel, List.countP_cons]
          positivity
    · intro n cid key hcid
      match n with
      | 0 => simp [beginsByAcct, endsByAcct]
      | n + 1 =>
          simp [beginsByAcct, endsByAcct, List.countP_cons]
          positivity
  exact (C7_inflight_counter [⟨"m", "p", "c", true⟩] hbal).1 "m (p)"

/-! ## Cost function (`calculateCost`, src/src/lib/usageDb.js)

JS numbers are modelled by `Rat`; an absent object field by `none`.  The
pricing lookup (`getPricingForModel`, an external storage call) is a function
parameter. -/

/-- Token counts of a usage entry (the fields `calculateCost` reads). -/
structure Tokens where
  prompt_tokens : Option Rat := none
  input_tokens : Option Rat := none
  cached_tokens : Option Rat := none
  cache_read_input_tokens : Option Rat := none
  completion_tokens : Option Rat := none
  output_tokens : Option Rat := none
  reasoning_tokens : Option Rat := none
  cache_creation_input_tokens : Option Rat := none
deriving Repr, DecidableEq

/-- A pricing entry: `input`/`output` rates plus optional `cached`,
`reasoning`, `cache_creation` rates, in USD per million tokens. -/
structure Pricing where
  input : Rat
  output : Rat
  cached : Option Rat := none
  reasoning : Option Rat := none
  cache_creation : Option Rat := none
deriving Repr, DecidableEq

/-- JS `x || y` on an optional number against a fallback: a missing or falsy
(zero) value falls through. -/
def numOr (x : Option Rat) (y : Rat) : Rat :=
  match x with
  | some v => if v ≠ 0 then v else y
  | none => y

/-- A category term guarded by `if (count > 0)` as in `calculateCost`:
`count > 0 ? count * rate : 0`. -/
def posRate (x r : Rat) : Rat := if x > 0 then x * r else 0

/-- The cost computed once a pricing entry is found (the body of
`calculateCost` after the `if (!pricing) return 0` guard). -/
def costWithPricing (pricing : Pricing) (t : Tokens) : Rat :=
  let inputTokens := numOr t.prompt_tokens (numOr t.input_tokens 0)
  let cachedTokens := numOr t.cached_tokens (numOr t.cache_read_input_tokens 0)
  let nonCachedInput := max 0 (inputTokens - cachedTokens)
  let c1 := nonCachedInput * (pricing.input / 1000000)
  let c2 := posRate cachedTokens (numOr pricing.cached pricing.input / 1000000)
  let outputTokens := numOr t.completion_tokens (numOr t.output_tokens 0)
  let c3 := outputTokens * (pricing.output / 1000000)
  let reasoningTokens := numOr t.reasoning_tokens 0
  let c4 := posRate reasoningTokens (numOr pricing.reasoning pricing.output / 1000000)
  let cacheCreationTokens := numOr t.cache_creation_input_tokens 0
  let c5 := posRate cacheCreationTokens (numOr pricing.cache_creation pricing.input / 1000000)
  c1 + c2 + c3 + c4 + c5

/-- `calculateCost(provider, model, tokens)` from usageDb.js: falsy arguments
and a missing pricing entry short-circuit to 0 instead of failing. -/
def calculateCost (lookupPricing : String → String → Option Pricing)
    (provider model : String) (tokens : Option Tokens) : Rat :=
  if tokens = none ∨ provider = "" ∨ model = "" then 0
  else
    match tokens, lookupPricing provider model with
    | some t, some pricing => costWithPricing pricing t
    | _, none => 0
    | none, _ => 0

/-- All token categories zero (alternate field names absent). -/
def zeroTokens : Tokens :=
  { prompt_tokens := some 0, cached_tokens := some 0, completion_tokens := some 0,
    reasoning_tokens := some 0, cache_creation_input_tokens := some 0 }

theorem numOr_some (x : Rat) (d : Rat) (hd : d = 0) : numOr (some x) d = x := by
  by_cases h : x = 0 <;> simp [numOr, h, hd]

theorem posRate_add (a b r : Rat) (ha : 0 ≤ a) (hb : 0 ≤ b) :
    posRate (a + b) r + posRate 0 r = posRate a r + posRate b r := by
  by_cases ha0 : a = 0
  · subst ha0
    simp [posRate]
  · by_cases hb0 : b = 0
    · subst hb0
      simp [posRate]
    · have ha1 : 0 < a := lt_of_le_of_ne ha (fun hh => ha0 hh.symm)
      have hb1 : 0 < b := lt_of_le_of_ne hb (fun hh => hb0 hh.symm)
      have hab : 0 < a + b := by positivity
      simp [posRate, ha1, hb1, hab]
      ring

/-- C8 (counterexample): with a pricing entry, the cost is not linear in the
prompt category: non-cached input is billed as `max(0, prompt − cached)`, so
with 3 cached tokens the prompt counts 4, 0, 1, 3 violate additivity. -/
theorem C8_cost_prompt_nonlinear_counterexample :
    ¬(calculateCost (fun _ _ => some { input := 1000000, output := 0 }) "prov" "mod"
          (some { prompt_tokens := some 4, cached_tokens := some 3 }) +
        calculateCost (fun _ _ => some { input := 1000000, output := 0 }) "prov" "mod"
          (some { prompt_tokens := some 0, cached_tokens := some 3 }) =
      calculateCost (fun _ _ => some { input := 1000000, output := 0 }) "prov" "mod"
          (some { prompt_tokens := some 1, cached_tokens := some 3 }) +
        calculateCost (fun _ _ => some { input := 1000000, output := 0 }) "prov" "mod"
          (some { prompt_tokens := some 3, cached_tokens := some 3 })) := by
  simp [calculateCost, costWithPricing, numOr, posRate]
  norm_num

/-- C8 (amended): `cost(p, m, 0) = 0`; the cost is additive in the completion,
reasoning and cache-creation categories, and in the prompt category when no
tokens are cached (in general non-cached input is billed as
`max(0, prompt − cached)`); a missing pricing entry yields cost 0 rather than
a failure. -/
theorem calculateCost_eval_some (L : String → String → Option Pricing)
    (p m : String) (t : Tokens) (pr : Pricing)
    (hp : ¬p = "") (hm : ¬m = "") (hL : L p m = some pr) :
    calculateCost L p m (some t) = costWithPricing pr t := by
  simp [calculateCost, hp, hm, hL]

theorem calculateCost_eval_none (L : String → String → Option Pricing)
    (p m : String) (t : Tokens)
    (hp : ¬p = "") (hm : ¬m = "") (hL : L p m = none) :
    calculateCost L p m (some t) = 0 := by
  simp [calculateCost, hp, hm, hL]

theorem posRate_zero (r : Rat) : posRate 0 r = 0 := by
  simp [posRate]

/-- C8 (amended): `cost(p, m, 0) = 0`; the cost is additive in the completion,
reasoning and cache-creation categories, and in the prompt category when no
tokens are cached (in general non-cached input is billed as
`max(0, prompt − cached)`); a missing pricing entry yields cost 0 rather than
a failure. -/
theorem C8_cost_function :
    (∀ (L : String → String → Option Pricing) (p m : String),
      calculateCost L p m (some zeroTokens) = 0) ∧
    (∀ (L : String → String → Option Pricing) (p m : String) (t : Tokens) (a b : Rat),
      t.output_tokens = none →
      calculateCost L p m (some { t with completion_tokens := some (a + b) }) +
          calculateCost L p m (some { t with completion_tokens := some 0 }) =
        calculateCost L p m (some { t with completion_tokens := some a }) +
          calculateCost L p m (some { t with completion_tokens := some b })) ∧
    (∀ (L : String → String → Option Pricing) (p m : String) (t : Tokens) (a b : Rat),
      0 ≤ a → 0 ≤ b →
      calculateCost L p m (some { t with reasoning_tokens := some (a + b) }) +
          calculateCost L p m (some { t with reasoning_tokens := some 0 }) =
        calculateCost L p m (some { t with reasoning_tokens := some a }) +
          calculateCost L p m (some { t with reasoning_tokens := some b })) ∧
    (∀ (L : String → String → Option Pricing) (p m : String) (t : Tokens) (a b : Rat),
      0 ≤ a → 0 ≤ b →
      calculateCost L p m (some { t with cache_creation_input_tokens := some (a + b) }) +
          calculateCost L p m (some { t with cache_creation_input_tokens := some 0 }) =
        calculateCost L p m (some { t with cache_creation_input_tokens := some a }) +
          calculateCost L p m (some { t with cache_creation_input_tokens := some b })) ∧
    (∀ (L : String → String → Option Pricing) (p m : String) (t : Tokens) (a b : Rat),
      t.input_tokens = none → t.cached_tokens = none → t.cache_read_input_tokens = none →
      0 ≤ a → 0 ≤ b →
      calculateCost L p m (some { t with prompt_tokens := some (a + b) }) +
          calculateCost L p m (some { t with prompt_tokens := some 0 }) =
        calculateCost L p m (some { t with prompt_tokens := some a }) +
          calculateCost L p m (some { t with prompt_tokens := some b })) ∧
    (∀ (L : String → String → Option Pricing) (p m : String) (t : Tokens),
      L p m = none → calculateCost L p m (some t) = 0) := by
  have hnum : ∀ x : Rat, numOr (some x) (numOr none 0) = x := by
    intro x
    by_cases h : x = 0 <;> simp [numOr, h]
  have hnum0 : ∀ x : Rat, numOr (some x) 0 = x := by
    intro x
    by_cases h : x = 0 <;> simp [numOr, h]
  refine ⟨?_, ?_, ?_, ?_, ?_, ?_⟩
  · intro L p m
    by_cases hp : p = ""
    · simp [calculateCost, hp]
    · by_cases hm : m = ""
      · simp [calculateCost, hm]
      · cases hL : L p m with
        | none => exact calculateCost_eval_none L p m _ hp hm hL
        | some pr =>
            rw [calculateCost_eval_some L p m _ pr hp hm hL]
            simp [costWithPricing, zeroTokens, numOr, posRate]
  · intro L p m t a b hout
    by_cases hp : p = ""
    · simp [calculateCost, hp]
    · by_cases hm : m = ""
      · simp [calculateCost, hm]
      · cases hL : L p m with
        | none =>
            rw [calculateCost_eval_none L p m _ hp hm hL,
              calculateCost_eval_none L p m _ hp hm hL,
              calculateCost_eval_none L p m _ hp hm hL,
              calculateCost_eval_none L p m _ hp hm hL]
        | some pr =>
            rw [calculateCost_eval_some L p m _ pr hp hm hL,
              calculateCost_eval_some L p m _ pr hp hm hL,
              calculateCost_eval_some L p m _ pr hp hm hL,
              calculateCost_eval_some L p m _ pr hp hm hL]
            simp [costWithPricing, hout, hnum, hnum0]
            ring
  · intro L p m t a b ha hb
    by_cases hp : p = ""
    · simp [calculateCost, hp]
    · by_cases hm : m = ""
      · simp [calculateCost, hm]
      · cases hL : L p m with
        | none =>
            rw [calculateCost_eval_none L p m _ hp hm hL,
              calculateCost_eval_none L p m _ hp hm hL,
              calculateCost_eval_none L p m _ hp hm hL,
              calculateCost_eval_none L p m _ hp hm hL]
        | some pr =>
            rw [calculateCost_eval_some L p m _ pr hp hm hL,
              calculateCost_eval_some L p m _ pr hp hm hL,
              calculateCost_eval_some L p m _ pr hp hm hL,
              calculateCost_eval_some L p m _ pr hp hm hL]
            simp only [costWithPricing, hnum0]
            have hpr := posRate_add a b (numOr pr.reasoning pr.output / 1000000) ha hb
            linarith [hpr]
  · intro L p m t a b ha hb
    by_cases hp : p = ""
    · simp [calculateCost, hp]
    · by_cases hm : m = ""
      · simp [calculateCost, hm]
      · cases hL : L p m with
        | none =>
            rw [calculateCost_eval_none L p m _ hp hm hL,
              calculateCost_eval_none L p m _ hp hm hL,
              calculateCost_eval_none L p m _ hp hm hL,
              calculateCost_eval_none L p m _ hp hm hL]
        | some pr =>
            rw [calculateCost_eval_some L p m _ pr hp hm hL,
              calculateCost_eval_some L p m _ pr hp hm hL,
              calculateCost_eval_some L p m _ pr hp hm hL,
              calculateCost_eval_some L p m _ pr hp hm hL]
            simp only [costWithPricing, hnum0]
            have hpr := posRate_add a b (numOr pr.cache_creation pr.input / 1000000) ha hb
            linarith [hpr]
  · intro L p m t a b hin hc1 hc2 ha hb
    have hab : (0:Rat) ≤ a + b := by positivity
    by_cases hp : p = ""
    · simp [calculateCost, hp]
    · by_cases hm : m = ""
      · simp [calculateCost, hm]
      · cases hL : L p m with
        | none =>
            rw [calculateCost_eval_none L p m _ hp hm hL,
              calculateCost_eval_none L p m _ hp hm hL,
              calculateCost_eval_none L p m _ hp hm hL,
              calculateCost_eval_none L p m _ hp hm hL]
        | some pr =>
            rw [calculateCost_eval_some L p m _ pr hp hm hL,
              calculateCost_eval_some L p m _ pr hp hm hL,
              calculateCost_eval_some L p m _ pr hp hm hL,
              calculateCost_eval_some L p m _ pr hp hm hL]
            have hnone : ∀ d : Rat, numOr none d = d := fun d => rfl
            simp only [costWithPricing, hin, hc1, hc2, hnum, hnum0, hnone, sub_zero,
              posRate_zero, max_self]
            rw [max_eq_right hab, max_eq_right ha, max_eq_right hb]
            ring
  · intro L p m t hL
    by_cases hp : p = ""
    · simp [calculateCost, hp]
    · by_cases hm : m = ""
      · simp [calculateCost, hm]
      · exact calculateCost_eval_none L p m _ hp hm hL

/-- C8 witness: the amended theorem applied at a concrete pricing entry and
token record (completion additivity at 2 + 3). -/
theorem C8_cost_function_witness :
    calculateCost (fun _ _ => some { input := 5, output := 7 }) "prov" "mod"
        (some { completion_tokens := some (2 + 3) }) +
      calculateCost (fun _ _ => some { input := 5, output := 7 }) "prov" "mod"
        (some { completion_tokens := some 0 }) =
    calculateCost (fun _ _ => some { input := 5, output := 7 }) "prov" "mod"
        (some { completion_tokens := some 2 }) +
      calculateCost (fun _ _ => some { input := 5, output := 7 }) "prov" "mod"
        (some { completion_tokens := some 3 }) := by
  exact C8_cost_function.2.1 (fun _ _ => some { input := 5, output := 7 }) "prov" "mod"
    {} 2 3 rfl


/-! ## Connection creation (POST /api/providers, src/unnamed/part_001)

The route handler validates the body, and for an OpenAI-compatible node
rejects a second connection for the same node with status 400.  The storage
layer (`@/models`) is outside the specified core. -/

/-- A stored provider connection (the fields this route writes). -/
structure Connection where
  provider : String
  authType : String
  name : String
  apiKey : String
  isActive : Bool
deriving Repr, DecidableEq

/-- A provider node record, as returned by `getProviderNodeById`. -/
structure ProviderNode where
  apiType : String
  baseUrl : String
  name : String
deriving Repr, DecidableEq

/-- Request body of POST /api/providers; a falsy JS field is the empty
string. -/
structure CreateBody where
  provider : String
  apiKey : String
  name : String
deriving Repr, DecidableEq

/-- Modelled from the spec: `getProviderConnections({provider})` of the
storage layer (not under src/) returns the stored connections filtered by
provider id. -/
def connectionsFor (store : List Connection) (provider : String) : List Connection :=
  store.filter (fun c => c.provider == provider)

/-- Modelled from the spec: `createProviderConnection` of the storage layer
appends a new connection record built from the request body. -/
def createProviderConnection (store : List Connection) (b : CreateBody) :
    List Connection :=
  store ++ [{ provider := b.provider, authType := "apikey", name := b.name,
              apiKey := b.apiKey, isActive := true }]

/-- POST /api/providers as a pure function of the request body and store:
returns the HTTP status and the store afterwards.  `apikeyProviders` and
`isOpenAICompat` embed the constant tables `APIKEY_PROVIDERS` and
`isOpenAICompatibleProvider`; `nodeById` embeds `getProviderNodeById`. -/
def postProviders (apikeyProviders isOpenAICompat : String → Bool)
    (nodeById : String → Option ProviderNode)
    (store : List Connection) (b : CreateBody) : Nat × List Connection :=
  if b.provider = "" ∨ (¬apikeyProviders b.provider ∧ ¬isOpenAICompat b.provider) then
    (400, store)
  else if b.apiKey = "" then (400, store)
  else if b.name = "" then (400, store)
  else if isOpenAICompat b.provider then
    match nodeById b.provider with
    | none => (404, store)
    | some _ =>
        if 0 < (connectionsFor store b.provider).length then (400, store)
        else (201, createProviderConnection store b)
  else (201, createProviderConnection store b)

/-- Every outcome of POST /api/providers: either the store is unchanged, or
one connection is appended, and in the OpenAI-compatible case only when the
node had none. -/
theorem postProviders_result (A C : String → Bool) (N : String → Option ProviderNode)
    (store : List Connection) (b : CreateBody) :
    (postProviders A C N store b).2 = store ∨
      ((postProviders A C N store b).2 = createProviderConnection store b ∧
        (C b.provider = true → (connectionsFor store b.provider).length = 0)) := by
  unfold postProviders
  by_cases h1 : b.provider = "" ∨ (¬A b.provider ∧ ¬C b.provider)
  · rw [if_pos h1]; left; rfl
  · rw [if_neg h1]
    by_cases h2 : b.apiKey = ""
    · rw [if_pos h2]; left; rfl
    · rw [if_neg h2]
      by_cases h3 : b.name = ""
      · rw [if_pos h3]; left; rfl
      · rw [if_neg h3]
        by_cases h4 : C b.provider
        · rw [if_pos h4]
          cases hnd : N b.provider with
          | none => left; rfl
          | some nd =>
              by_cases h5 : 0 < (connectionsFor store b.provider).length
              · rw [if_pos h5]; left; rfl
              · rw [if_neg h5]
                right
                refine ⟨rfl, fun _ => ?_⟩
                omega
        · rw [if_neg h4]
          right
          exact ⟨rfl, fun hc => absurd hc (by simpa using h4)⟩

/-- C9: a POST /api/providers that targets an OpenAI-compatible node which
already has a connection is rejected with status 400 and leaves the store
unchanged; consequently every create preserves the at-most-one-connection
invariant for every OpenAI-compatible node. -/
theorem C9_single_connection_per_node
    (apikeyProviders isOpenAICompat : String → Bool)
    (nodeById : String → Option ProviderNode)
    (store : List Connection) (b : CreateBody) :
    (isOpenAICompat b.provider = true →
      (∃ c ∈ store, c.provider = b.provider) →
      nodeById b.provider ≠ none →
      postProviders apikeyProviders isOpenAICompat nodeById store b = (400, store)) ∧
    (∀ node, isOpenAICompat node = true →
      (connectionsFor store node).length ≤ 1 →
      (connectionsFor (postProviders apikeyProviders isOpenAICompat nodeById store b).2
        node).length ≤ 1) := by
  constructor
  · intro hcompat hexists hnode
    obtain ⟨c, hc, hcp⟩ := hexists
    have hlen : 0 < (connectionsFor store b.provider).length := by
      have hmem : c ∈ connectionsFor store b.provider := by
        simp [connectionsFor, List.mem_filter, hc, hcp]
      exact List.length_pos_of_mem hmem
    by_cases hp : b.provider = ""
    · simp [postProviders, hp]
    · by_cases hk : b.apiKey = ""
      · simp [postProviders, hp, hk, hcompat]
      · by_cases hn : b.name = ""
        · simp [postProviders, hp, hk, hn, hcompat]
        · cases hnd : nodeById b.provider with
          | none => exact absurd hnd hnode
          | some nd => simp [postProviders, hp, hk, hn, hcompat, hnd, hlen]
  · intro node hnode hle
    have hres := postProviders_result apikeyProviders isOpenAICompat nodeById store b
    rcases hres with hsame | ⟨hcreated, hcount⟩
    · rwa [hsame]
    · rw [hcreated]
      by_cases hsameP : b.provider = node
      · have hzero := hcount (hsameP ▸ hnode)
        rw [hsameP] at hzero
        simp only [createProviderConnection, connectionsFor, List.filter_append] at hzero ⊢
        simp [hsameP] at hzero ⊢
        exact hzero
      · simp only [createProviderConnection, connectionsFor, List.filter_append]
        simp only [connectionsFor] at hle
        simp [hsameP]
        exact hle

/-- C9 witness: with one OpenAI-compatible node "node1" holding one
connection, a second create for it returns 400 and leaves the single stored
connection in place. -/
theorem C9_single_connection_per_node_witness :
    postProviders (fun _ => false) (fun p => p == "node1")
        (fun _ => some { apiType := "chat", baseUrl := "u", name := "n" })
        [{ provider := "node1", authType := "apikey", name := "a",
           apiKey := "k", isActive := true }]
        { provider := "node1", apiKey := "k2", name := "b" } =
      (400, [{ provider := "node1", authType := "apikey", name := "a",
               apiKey := "k", isActive := true }]) := by
  exact (C9_single_connection_per_node (fun _ => false) (fun p => p == "node1")
      (fun _ => some { apiType := "chat", baseUrl := "u", name := "n" })
      [{ provider := "node1", authType := "apikey", name := "a",
         apiKey := "k", isActive := true }]
      { provider := "node1", apiKey := "k2", name := "b" }).1
    (by decide)
    ⟨{ provider := "node1", authType := "apikey", name := "a",
       apiKey := "k", isActive := true }, by simp, rfl⟩
    (by simp)



/-! ## Kiro executor: AWS EventStream to OpenAI SSE
(`KiroExecutor.transformEventStreamToSSE` and `parseEventFrame`,
src/open-sse/translator/helpers/geminiHelper.js)

The per-frame behaviour of the transform is embedded as a state machine
`processEvent` over the closure state of the `ReadableStream` pull handler;
end-of-stream handling is `processDone`.  The 100 ms post-metering timer is
real-time behaviour and is not part of the embedded step function (only the
`endDetected` flag it reads is). -/

/-- JS `===` on values of a parsed JSON tree: primitives by value; two
distinct object or array nodes of a parsed tree are never identical. -/
def jsStrictEq : Json → Json → Bool
  | .null, .null => true
  | .bool a, .bool b => a == b
  | .num a, .num b => a == b
  | .str a, .str b => a == b
  | _, _ => false

/-- Hex digit for JSON string escapes. -/
def hexDigit (n : Nat) : Char :=
  if n < 10 then Char.ofNat (48 + n) else Char.ofNat (87 + n)

/-- JSON string escaping as in `JSON.stringify`. -/
def jsonQuote (s : String) : String :=
  let esc := fun (c : Char) =>
    if c = '"' then "\\\""
    else if c = '\\' then "\\\\"
    else if c = (Char.ofNat 10) then "\\n"
    else if c = (Char.ofNat 13) then "\\r"
    else if c = (Char.ofNat 9) then "\\t"
    else if c = (Char.ofNat 8) then "\\b"
    else if c = (Char.ofNat 12) then "\\f"
    else if c.toNat < 32 then
      "\\u00" ++ String.mk [hexDigit (c.toNat / 16), hexDigit (c.toNat % 16)]
    else String.mk [c]
  "\"" ++ String.join (s.data.map esc) ++ "\""

mutual

/-- `JSON.stringify` on the value tree (members keep insertion order). -/
def jsonStringify : Json → String
  | .null => "null"
  | .bool true => "true"
  | .bool false => "false"
  | .num n => toString n
  | .str s => jsonQuote s
  | .arr es => "[" ++ String.intercalate "," (stringifyElems es) ++ "]"
  | .obj ms => "\x7b" ++ String.intercalate "," (stringifyMembers ms) ++ "\x7d"

/-- Serialised array elements. -/
def stringifyElems : List Json → List String
  | [] => []
  | e :: es => jsonStringify e :: stringifyElems es

/-- Serialised object members. -/
def stringifyMembers : List (String × Json) → List String
  | [] => []
  | (k, v) :: ms => (jsonQuote k ++ ":" ++ jsonStringify v) :: stringifyMembers ms

end

/-- One parsed EventStream frame: string-typed headers plus the decoded
payload (`null` in JS is `none` here). -/
structure KEvent where
  headers : List (String × String)
  payload : Option Json
deriving Repr, DecidableEq

/-- The `function` part of a streamed tool-call delta. -/
structure FunctionDelta where
  name : Option Json := none
  arguments : Option String := none
deriving Repr, DecidableEq

/-- One entry of a `tool_calls` delta array. -/
structure ToolCallDelta where
  index : Nat
  id : Option Json := none
  type : Option String := none
  function : FunctionDelta := {}
deriving Repr, DecidableEq

/-- An OpenAI streaming delta; absent JS fields are `none`. -/
structure Delta where
  role : Option String := none
  content : Option Json := none
  tool_calls : Option (List ToolCallDelta) := none
deriving Repr, DecidableEq

/-- One choice of a streamed chunk. -/
structure Choice where
  index : Nat
  delta : Delta
  finish_reason : Option String
deriving Repr, DecidableEq

/-- An OpenAI chat-completion chunk as emitted by the Kiro transform. -/
structure Chunk where
  id : String
  object : String
  created : Nat
  model : String
  choices : List Choice
deriving Repr, DecidableEq

/-- Request-constant data of one transform invocation: the generated response
id, creation time, model name, and `Date.now()` for fallback tool ids. -/
structure KiroCtx where
  responseId : String
  created : Nat
  model : String
  nowMs : Nat
deriving Repr, DecidableEq

/-- The mutable closure state of the transform (`state` plus `chunkIndex`). -/
structure TState where
  endDetected : Bool := false
  finishEmitted : Bool := false
  hasToolCalls : Bool := false
  toolCallIndex : Nat := 0
  seenToolIds : List (Json × Nat) := []
  chunkIndex : Nat := 0
deriving Repr, DecidableEq

/-- `state.seenToolIds.has/get` (a JS `Map` keyed with SameValueZero). -/
def seenLookup (seen : List (Json × Nat)) (k : Json) : Option Nat :=
  match seen with
  | [] => none
  | (k2, v) :: rest => if jsStrictEq k2 k then some v else seenLookup rest k

/-- Build a chunk with the invocation constants and a single choice. -/
def mkChunk (ctx : KiroCtx) (delta : Delta) (finish : Option String) : Chunk :=
  { id := ctx.responseId, object := "chat.completion.chunk", created := ctx.created,
    model := ctx.model,
    choices := [{ index := 0, delta := delta, finish_reason := finish }] }

/-- The start chunk emitted on the first sighting of a tool id (lines 889-912
of the source): role `assistant` on the very first chunk, one `tool_calls`
entry with the allocated index, the id, type `"function"`, the tool name and
empty arguments. -/
def startToolChunk (ctx : KiroCtx) (chunkIndex toolIndex : Nat)
    (toolCallId toolName : Json) : Chunk :=
  mkChunk ctx
    { role := if chunkIndex = 0 then some "assistant" else none,
      tool_calls := some
        [{ index := toolIndex, id := some toolCallId, type := some "function",
           function := { name := some toolName, arguments := some "" } }] }
    none

/-- The arguments chunk appending one fragment at a tool index. -/
def argsToolChunk (ctx : KiroCtx) (toolIndex : Nat) (argumentsStr : String) : Chunk :=
  mkChunk ctx
    { tool_calls := some
        [{ index := toolIndex, function := { arguments := some argumentsStr } }] }
    none

/-- Emit the arguments chunk for one tool-use item when `input` is present:
a string is passed through, an object (including `null`) is stringified,
anything else is skipped (`continue`). -/
def emitArgsChunk (ctx : KiroCtx) (st : TState) (toolIndex : Nat)
    (toolInput : Option Json) : TState × List Chunk :=
  match toolInput with
  | none => (st, [])
  | some inp =>
      match inp with
      | .str s =>
          ({ st with chunkIndex := st.chunkIndex + 1 }, [argsToolChunk ctx toolIndex s])
      | .obj ms =>
          ({ st with chunkIndex := st.chunkIndex + 1 },
           [argsToolChunk ctx toolIndex (jsonStringify (.obj ms))])
      | .arr es =>
          ({ st with chunkIndex := st.chunkIndex + 1 },
           [argsToolChunk ctx toolIndex (jsonStringify (.arr es))])
      | .null =>
          ({ st with chunkIndex := st.chunkIndex + 1 },
           [argsToolChunk ctx toolIndex (jsonStringify .null)])
      | _ => (st, [])

/-- `singleToolUse.toolUseId || `call_${Date.now()}``. -/
def toolCallIdOf (ctx : KiroCtx) (single : Json) : Json :=
  match single.get "toolUseId" with
  | some v => if v.truthy then v else .str ("call_" ++ toString ctx.nowMs)
  | none => .str ("call_" ++ toString ctx.nowMs)

/-- `singleToolUse.name || ""`. -/
def toolNameOf (single : Json) : Json :=
  match single.get "name" with
  | some v => if v.truthy then v else .str ""
  | none => .str ""

/-- Process one `singleToolUse` item of a `toolUseEvent` payload (the body of
the `for (const singleToolUse of toolUses)` loop). -/
def processSingleToolUse (ctx : KiroCtx) (st : TState) (single : Json) :
    TState × List Chunk :=
  let toolCallId := toolCallIdOf ctx single
  let toolName := toolNameOf single
  let toolInput := single.get "input"
  match seenLookup st.seenToolIds toolCallId with
  | none =>
      let toolIndex := st.toolCallIndex
      let st1 := { st with toolCallIndex := st.toolCallIndex + 1,
                           seenToolIds := st.seenToolIds ++ [(toolCallId, toolIndex)] }
      let startChunk := startToolChunk ctx st1.chunkIndex toolIndex toolCallId toolName
      let st2 := { st1 with chunkIndex := st1.chunkIndex + 1 }
      let r := emitArgsChunk ctx st2 toolIndex toolInput
      (r.1, startChunk :: r.2)
  | some toolIndex => emitArgsChunk ctx st toolIndex toolInput

/-- Fold of `processSingleToolUse` over the tool-use items of one event. -/
def processToolUses (ctx : KiroCtx) (st : TState) : List Json → TState × List Chunk
  | [] => (st, [])
  | single :: rest =>
      let r1 := processSingleToolUse ctx st single
      let r2 := processToolUses ctx r1.1 rest
      (r2.1, r1.2 ++ r2.2)

/-- One step of the transform on a parsed frame (the event dispatch of the
pull handler); returns the new state and the chunks enqueued. -/
def processEvent (ctx : KiroCtx) (st : TState) (event : KEvent) : TState × List Chunk :=
  let eventType := (aget event.headers ":event-type").getD ""
  if eventType = "assistantResponseEvent" then
    match event.payload.bind (fun p => p.get "content") with
    | some content =>
        if content.truthy then
          ({ st with chunkIndex := st.chunkIndex + 1 },
           [mkChunk ctx
             { role := if st.chunkIndex = 0 then some "assistant" else none,
               content := some content } none])
        else (st, [])
    | none => (st, [])
  else if eventType = "codeEvent" then
    match event.payload.bind (fun p => p.get "content") with
    | some content =>
        if content.truthy then
          ({ st with chunkIndex := st.chunkIndex + 1 },
           [mkChunk ctx { content := some content } none])
        else (st, [])
    | none => (st, [])
  else if eventType = "toolUseEvent" then
    match event.payload with
    | some p =>
        if p.truthy then
          let toolUses := match p with | .arr es => es | other => [other]
          processToolUses ctx { st with hasToolCalls := true } toolUses
        else (st, [])
    | none => (st, [])
  else if eventType = "messageStopEvent" then
    ({ st with finishEmitted := true },
     [mkChunk ctx {} (some (if st.hasToolCalls then "tool_calls" else "stop"))])
  else if eventType = "meteringEvent" ∨ eventType = "contextUsageEvent" then
    if ¬st.endDetected then ({ st with endDetected := true }, []) else (st, [])
  else (st, [])

/-- `if (!event) continue`: an unparsable frame is skipped, the state and the
output are untouched and the loop moves to the next frame. -/
def processFrame (ctx : KiroCtx) (st : TState) (ev : Option KEvent) :
    TState × List Chunk :=
  match ev with
  | none => (st, [])
  | some e => processEvent ctx st e

/-- A line of the produced SSE stream. -/
inductive SSELine where
  | data (chunk : Chunk)
  | done
deriving Repr, DecidableEq

/-- End-of-stream handling (`if (done) { ... }` of the pull handler): emit the
finish chunk if none was emitted, then `data: [DONE]` and close. -/
def processDone (ctx : KiroCtx) (st : TState) : TState × List SSELine :=
  if ¬st.finishEmitted then
    ({ st with finishEmitted := true },
     [.data (mkChunk ctx {} (some (if st.hasToolCalls then "tool_calls" else "stop"))),
      .done])
  else (st, [.done])



/-- Fold of `processEvent` over a parsed frame sequence, concatenating the
emitted chunks. -/
def processEvents (ctx : KiroCtx) (st : TState) : List KEvent → TState × List Chunk
  | [] => (st, [])
  | e :: es =>
      let r1 := processEvent ctx st e
      let r2 := processEvents ctx r1.1 es
      (r2.1, r1.2 ++ r2.2)

/-! ### The EventStream frame parser (`parseEventFrame`) -/

/-- Big-endian 32-bit word from four bytes (`DataView.getUint32(…, false)`). -/
def u32be (b0 b1 b2 b3 : Nat) : Nat := ((b0 * 256 + b1) * 256 + b2) * 256 + b3

/-- The header-parsing loop of `parseEventFrame`.  `decode` is the engine
TextDecoder.  Out-of-range `Uint8Array` reads yield `undefined`, which the
source's arithmetic and comparisons treat exactly as the 0 default here
(`undefined ≠ 7` breaks, `(x << 8) | undefined` is `x << 8`). -/
def parseHeadersAux (decode : List Nat → String) (data : List Nat) (headerEnd : Nat)
    (offset : Nat) (acc : List (String × String)) : List (String × String) :=
  if h : offset < headerEnd ∧ offset < data.length then
    let nameLen := data.getD offset 0
    if offset + 1 + nameLen > data.length then acc
    else
      let name := decode ((data.drop (offset + 1)).take nameLen)
      let headerType := data.getD (offset + 1 + nameLen) 0
      if headerType = 7 then
        let valueLen := (data.getD (offset + 2 + nameLen) 0) * 256 +
          data.getD (offset + 3 + nameLen) 0
        if offset + 4 + nameLen + valueLen > data.length then acc
        else
          let value := decode ((data.drop (offset + 4 + nameLen)).take valueLen)
          parseHeadersAux decode data headerEnd (offset + 4 + nameLen + valueLen)
            (aset acc name value)
      else acc
  else acc
termination_by headerEnd - offset
decreasing_by
  simp_wf
  omega

/-- `parseEventFrame(data)`: `none` models the `catch` path (the only
uncaught-exception source is `getUint32(4)` on a frame shorter than 8 bytes);
otherwise string-typed headers are collected and the payload region (between
the headers and the 4-byte CRC) is decoded: a blank region gives payload
`null`, valid JSON parses, and anything else is wrapped as `{raw: …}`.
`decode` is the TextDecoder, `jparse` is `JSON.parse` (`none` = throw), and
`blank` models `!payloadStr || !payloadStr.trim()`. -/
def parseEventFrame (decode : List Nat → String) (jparse : String → Option Json)
    (blank : String → Bool) (data : List Nat) : Option KEvent :=
  if data.length < 8 then none
  else
    let headersLength := u32be (data.getD 4 0) (data.getD 5 0) (data.getD 6 0) (data.getD 7 0)
    let headers := parseHeadersAux decode data (12 + headersLength) 12 []
    let payloadStart := 12 + headersLength
    if (data.length : Int) - 4 > (payloadStart : Int) then
      let payloadStr := decode ((data.drop payloadStart).take (data.length - 4 - payloadStart))
      if blank payloadStr then some { headers := headers, payload := none }
      else
        match jparse payloadStr with
        | some j => some { headers := headers, payload := some j }
        | none => some { headers := headers, payload := some (.obj [("raw", .str payloadStr)]) }
    else some { headers := headers, payload := none }



theorem processSingleToolUse_hasToolCalls (ctx : KiroCtx) (st : TState) (single : Json) :
    (processSingleToolUse ctx st single).1.hasToolCalls = st.hasToolCalls := by
  unfold processSingleToolUse emitArgsChunk
  dsimp only
  split <;> (try split) <;> (try split) <;> rfl

theorem processToolUses_hasToolCalls (ctx : KiroCtx) :
    ∀ (l : List Json) (st : TState),
      (processToolUses ctx st l).1.hasToolCalls = st.hasToolCalls
  | [], st => rfl
  | single :: rest, st => by
      show (processToolUses ctx (processSingleToolUse ctx st single).1 rest).1.hasToolCalls = _
      rw [processToolUses_hasToolCalls ctx rest, processSingleToolUse_hasToolCalls]

/-- C1: in the Kiro transform, the first `toolUseEvent` frame for a tool id
allocates the next integer index, records it, and emits exactly one start
chunk (index, id, type `"function"`, tool name, empty arguments), followed by
an arguments chunk only when the frame carries an input; a later frame for
the same id emits no start chunk but appends its string input as one
arguments fragment at the recorded index; any `toolUseEvent` with a truthy
payload sets the has-tool-calls flag; and the two-frame scenario (input
absent, then `{"a":1}`) yields exactly one start chunk with empty arguments
followed by exactly one arguments chunk. -/
theorem C1_toolUseEvent_start_and_args :
    (∀ (ctx : KiroCtx) (st : TState) (single : Json) (id : Json),
      single.get "toolUseId" = some id → id.truthy = true →
      seenLookup st.seenToolIds id = none →
      single.get "input" = none →
      processSingleToolUse ctx st single =
        ({ st with toolCallIndex := st.toolCallIndex + 1,
                   seenToolIds := st.seenToolIds ++ [(id, st.toolCallIndex)],
                   chunkIndex := st.chunkIndex + 1 },
         [startToolChunk ctx st.chunkIndex st.toolCallIndex id (toolNameOf single)])) ∧
    (∀ (ctx : KiroCtx) (st : TState) (single : Json) (id : Json) (s : String),
      single.get "toolUseId" = some id → id.truthy = true →
      seenLookup st.seenToolIds id = none →
      single.get "input" = some (.str s) →
      processSingleToolUse ctx st single =
        ({ st with toolCallIndex := st.toolCallIndex + 1,
                   seenToolIds := st.seenToolIds ++ [(id, st.toolCallIndex)],
                   chunkIndex := st.chunkIndex + 2 },
         [startToolChunk ctx st.chunkIndex st.toolCallIndex id (toolNameOf single),
          argsToolChunk ctx st.toolCallIndex s])) ∧
    (∀ (ctx : KiroCtx) (st : TState) (single : Json) (id : Json) (i : Nat) (s : String),
      single.get "toolUseId" = some id → id.truthy = true →
      seenLookup st.seenToolIds id = some i →
      single.get "input" = some (.str s) →
      processSingleToolUse ctx st single =
        ({ st with chunkIndex := st.chunkIndex + 1 }, [argsToolChunk ctx i s])) ∧
    (∀ (ctx : KiroCtx) (st : TState) (ev : KEvent) (p : Json),
      aget ev.headers ":event-type" = some "toolUseEvent" →
      ev.payload = some p → p.truthy = true →
      (processEvent ctx st ev).1.hasToolCalls = true) ∧
    (∀ ctx : KiroCtx,
      processEvents ctx {}
        [{ headers := [(":event-type", "toolUseEvent")],
           payload := some (.obj [("toolUseId", .str "t1"), ("name", .str "get_weather")]) },
         { headers := [(":event-type", "toolUseEvent")],
           payload := some (.obj [("toolUseId", .str "t1"),
             ("input", .str "\x7b\"a\":1\x7d")]) }] =
        ({ endDetected := false, finishEmitted := false, hasToolCalls := true,
           toolCallIndex := 1, seenToolIds := [(.str "t1", 0)], chunkIndex := 2 },
         [startToolChunk ctx 0 0 (.str "t1") (.str "get_weather"),
          argsToolChunk ctx 0 "\x7b\"a\":1\x7d"])) := by
  refine ⟨?_, ?_, ?_, ?_, ?_⟩
  · intro ctx st single id h1 h2 h3 h4
    have hid : toolCallIdOf ctx single = id := by simp [toolCallIdOf, h1, h2]
    simp [processSingleToolUse, hid, h3, h4, emitArgsChunk]
  · intro ctx st single id s h1 h2 h3 h4
    have hid : toolCallIdOf ctx single = id := by simp [toolCallIdOf, h1, h2]
    simp [processSingleToolUse, hid, h3, h4, emitArgsChunk]
  · intro ctx st single id i s h1 h2 h3 h4
    have hid : toolCallIdOf ctx single = id := by simp [toolCallIdOf, h1, h2]
    simp [processSingleToolUse, hid, h3, h4, emitArgsChunk]
  · intro ctx st ev p hev hp htr
    simp [processEvent, hev, hp, htr, processToolUses_hasToolCalls]
  · intro ctx
    rfl

/-- C1 witness: the first-sighting conjunct applied to a concrete frame. -/
theorem C1_toolUseEvent_start_and_args_witness :
    processSingleToolUse ⟨"chatcmpl-1", 7, "m0", 42⟩ {}
        (.obj [("toolUseId", .str "tA"), ("name", .str "nm")]) =
      ({ toolCallIndex := 1, seenToolIds := [(.str "tA", 0)], chunkIndex := 1 },
       [startToolChunk ⟨"chatcmpl-1", 7, "m0", 42⟩ 0 0 (.str "tA") (.str "nm")]) := by
  have h := C1_toolUseEvent_start_and_args.1 ⟨"chatcmpl-1", 7, "m0", 42⟩ {}
    (.obj [("toolUseId", .str "tA"), ("name", .str "nm")]) (.str "tA") rfl rfl rfl rfl
  simpa [toolNameOf] using h

/-- C4: a `messageStopEvent` frame emits one chunk with an empty delta whose
`finish_reason` is `"tool_calls"` when the has-tool-calls flag is set and
`"stop"` otherwise, and marks the finish as emitted; when the reader reports
done, a finish chunk is emitted under the same rule if none was emitted yet,
followed in all cases by `data: [DONE]` and stream close. -/
theorem C4_finish_chunk_rules :
    (∀ (ctx : KiroCtx) (st : TState) (ev : KEvent),
      aget ev.headers ":event-type" = some "messageStopEvent" →
      processEvent ctx st ev =
        ({ st with finishEmitted := true },
         [mkChunk ctx {} (some (if st.hasToolCalls then "tool_calls" else "stop"))])) ∧
    (∀ (ctx : KiroCtx) (st : TState), st.finishEmitted = false →
      processDone ctx st =
        ({ st with finishEmitted := true },
         [.data (mkChunk ctx {} (some (if st.hasToolCalls then "tool_calls" else "stop"))),
          .done])) ∧
    (∀ (ctx : KiroCtx) (st : TState), st.finishEmitted = true →
      processDone ctx st = (st, [.done])) ∧
    (∀ (ctx : KiroCtx) (st : TState),
      (processDone ctx st).2.getLast? = some .done ∧
      (processDone ctx st).1.finishEmitted = true) := by
  refine ⟨?_, ?_, ?_, ?_⟩
  · intro ctx st ev hev
    simp [processEvent, hev]
  · intro ctx st hf
    simp [processDone, hf]
  · intro ctx st hf
    simp [processDone, hf]
  · intro ctx st
    by_cases hf : st.finishEmitted <;> simp [processDone, hf]

/-- C4 witness: the done handler after a tool-call stream with no finish
emitted yet. -/
theorem C4_finish_chunk_rules_witness :
    processDone ⟨"chatcmpl-1", 7, "m0", 42⟩ { hasToolCalls := true } =
      ({ hasToolCalls := true, finishEmitted := true },
       [.data (mkChunk ⟨"chatcmpl-1", 7, "m0", 42⟩ {} (some "tool_calls")), .done]) := by
  have h := C4_finish_chunk_rules.2.1 ⟨"chatcmpl-1", 7, "m0", 42⟩ { hasToolCalls := true } rfl
  simpa using h

/-- C10: `parseEventFrame` is total: it returns `none` exactly on frames
shorter than the 8 bytes its prelude read needs (the caught-exception path),
and otherwise yields string-typed headers with a payload that is `null`
(blank or absent region), the parsed JSON value, or a `{raw: …}` wrapper when
the region is not valid JSON; and the enclosing transform skips an
unparsable frame, leaving the state unchanged and emitting nothing. -/
theorem C10_parseEventFrame_total :
    (∀ (decode : List Nat → String) (jparse : String → Option Json)
        (blank : String → Bool) (data : List Nat),
      (parseEventFrame decode jparse blank data = none ↔ data.length < 8) ∧
      (∀ ev, parseEventFrame decode jparse blank data = some ev →
        ev.payload = none ∨
        (∃ s, blank s = false ∧
          ((∃ j, jparse s = some j ∧ ev.payload = some j) ∨
            (jparse s = none ∧ ev.payload = some (Json.obj [("raw", Json.str s)])))))) ∧
    (∀ (ctx : KiroCtx) (st : TState), processFrame ctx st none = (st, [])) := by
  constructor
  · intro decode jparse blank data
    constructor
    · constructor
      · intro h
        by_cases hlen : data.length < 8
        · exact hlen
        · exfalso
          unfold parseEventFrame at h
          rw [if_neg hlen] at h
          dsimp only at h
          split at h
          · split at h
            · exact Option.noConfusion h
            · split at h
              · exact Option.noConfusion h
              · exact Option.noConfusion h
          · exact Option.noConfusion h
      · intro hlen
        simp [parseEventFrame, hlen]
    · intro ev h
      by_cases hlen : data.length < 8
      · rw [(by simp [parseEventFrame, hlen] :
          parseEventFrame decode jparse blank data = none)] at h
        exact Option.noConfusion h
      · unfold parseEventFrame at h
        rw [if_neg hlen] at h
        dsimp only at h
        split at h
        · rename_i hregion
          split at h
          · rename_i hblank
            left
            cases h
            rfl
          · rename_i hblank
            split at h
            · rename_i j hparse
              cases h
              right
              refine ⟨_, by simpa using hblank, Or.inl ⟨j, hparse, rfl⟩⟩
            · rename_i hparse
              cases h
              right
              refine ⟨_, by simpa using hblank, Or.inr ⟨hparse, rfl⟩⟩
        · left
          cases h
          rfl
  · intro ctx st
    rfl

/-- C10 witness: the totality characterisation applied to a 2-byte frame. -/
theorem C10_parseEventFrame_total_witness :
    parseEventFrame (fun _ => "") (fun _ => none) (fun _ => true) [1, 2] = none := by
  exact ((C10_parseEventFrame_total.1 (fun _ => "") (fun _ => none) (fun _ => true)
    [1, 2]).1).mpr (by decide)



/-! ## Chat core (`handleChatCore`, src/open-sse — chatCore.js)

The sequential control flow of one account attempt is embedded with its I/O
effects (bypass probe, executor call, token refresh, retry) represented by an
environment of call results. -/

/-- `response.ok`: status in the 2xx range. -/
def okStatus (status : Nat) : Bool := 200 ≤ status && status < 300

/-- Result of one `executor.execute` call: a thrown AbortError, another
throw, or an HTTP response with a status. -/
inductive ExecOutcome where
  | throwAbort
  | throwOther
  | respond (status : Nat)
deriving Repr, DecidableEq

/-- What `handleChatCore` returns to its caller, by kind. -/
inductive ChatResult where
  | bypassResponse
  | errorResult (status : Nat)
  | jsonResponse
  | sseResponse
deriving Repr, DecidableEq

/-- The call results seen by one `handleChatCore` run: the bypass probe, the
first execute, whether `refreshWithRetry` yielded usable credentials, and the
retry execute after a refresh. -/
structure ChatCoreEnv where
  bypass : Option ChatResult := none
  exec : ExecOutcome
  refreshOk : Bool := false
  retry : Option ExecOutcome := none
deriving Repr, DecidableEq

/-- `body.stream !== false`: streaming is on unless the flag is literally
`false`. -/
def streamRequested (body : Json) : Bool :=
  body.get "stream" != some (Json.bool false)

/-- `handleChatCore` as a function of its environment and request body:
bypass short-circuits; a throw maps to 499/502; a 401/403 first response
triggers one refresh-and-retry whose response replaces the first only when it
is ok; a non-ok final response becomes a structured error result; otherwise
the upstream JSON is returned directly when `stream` is off and a piped SSE
stream when it is on. -/
def handleChatCore (env : ChatCoreEnv) (body : Json) : ChatResult :=
  match env.bypass with
  | some r => r
  | none =>
      let stream := streamRequested body
      match env.exec with
      | .throwAbort => .errorResult 499
      | .throwOther => .errorResult 502
      | .respond status =>
          let finalStatus :=
            if status = 401 ∨ status = 403 then
              if env.refreshOk then
                match env.retry with
                | some (.respond s2) => if okStatus s2 then s2 else status
                | _ => status
              else status
            else status
          if ¬okStatus finalStatus then .errorResult finalStatus
          else if ¬stream then .jsonResponse
          else .sseResponse



/-- C5 (counterexample): a body that does not request streaming (no `stream`
flag at all) still gets an SSE response for an OK upstream, because the code
computes `stream = body.stream !== false`; so "SSE exactly when the stream
flag requests it" fails at `stream` absent. -/
theorem C5_stream_default_counterexample :
    ¬(handleChatCore { exec := .respond 200 } (Json.obj []) = ChatResult.sseResponse ↔
        (Json.obj []).get "stream" = some (Json.bool true)) := by
  decide

/-- C5 (amended): for a non-bypass request with an OK upstream response, the
result is an SSE stream exactly when `body.stream` is not literally `false`
(streaming is the default), and the upstream JSON is returned as a plain JSON
response exactly when `body.stream === false`. -/
theorem C5_stream_iff_flag (env : ChatCoreEnv) (body : Json) (status : Nat)
    (hb : env.bypass = none) (he : env.exec = .respond status)
    (hok : okStatus status = true) :
    (handleChatCore env body = ChatResult.sseResponse ↔
      body.get "stream" ≠ some (Json.bool false)) ∧
    (handleChatCore env body = ChatResult.jsonResponse ↔
      body.get "stream" = some (Json.bool false)) := by
  have h45 : ¬(status = 401 ∨ status = 403) := by
    rintro (h | h) <;> rw [h] at hok <;> simp [okStatus] at hok
  by_cases hst : body.get "stream" = some (Json.bool false)
  · constructor
    · simp [handleChatCore, hb, he, h45, hok, streamRequested, hst]
    · simp [handleChatCore, hb, he, h45, hok, streamRequested, hst]
  · constructor
    · simp [handleChatCore, hb, he, h45, hok, streamRequested, hst]
    · simp [handleChatCore, hb, he, h45, hok, streamRequested, hst]

/-- C5 witness: the amended rule at a concrete OK response and
`stream: false` body. -/
theorem C5_stream_iff_flag_witness :
    handleChatCore { exec := .respond 200 }
        (Json.obj [("stream", Json.bool false)]) = ChatResult.jsonResponse := by
  exact (C5_stream_iff_flag { exec := .respond 200 }
    (Json.obj [("stream", Json.bool false)]) 200 rfl rfl rfl).2.mpr rfl

/-! ## Account loop of the chat handler (`handleSingleModelChat`,
src/src/sse/handlers/chat.js)

The loop over accounts is embedded with the credential selection and the
chat-core result of each iteration given by environment functions; marked
accounts (cooldowns) are accumulated. -/

/-- Result of one `handleChatCore` attempt as seen by the loop. -/
inductive CoreOut where
  | coreSuccess
  | coreFailure (status : Nat) (error : String)
deriving Repr, DecidableEq

/-- Modelled from the spec: `checkFallbackError` lives in
open-sse/services/accountFallback.js, which is not under src/; §4.5 of the
spec defines it: 429 falls back with the server-specified delay or
exponential `min(2^n, 120000)` ms; 401/403 fall back with 30 minutes; 402 and
451 with 24 hours; 5xx with 60 seconds; network/abort (499, 502) with 10
seconds; any other 4xx is fatal.  `parseRetry` extracts a server-specified
delay from the error message, `failCount` is the connection's
consecutive-failure count. -/
def checkFallbackError (parseRetry : String → Option Nat) (failCount : Nat)
    (status : Nat) (error : String) : Bool × Nat :=
  if status = 429 then
    match parseRetry error with
    | some ms => (true, ms)
    | none => (true, min (2 ^ failCount) 120000)
  else if status = 401 ∨ status = 403 then (true, 30 * 60 * 1000)
  else if status = 402 ∨ status = 451 then (true, 24 * 60 * 60 * 1000)
  else if status = 499 ∨ status = 502 then (true, 10 * 1000)
  else if 500 ≤ status then (true, 60 * 1000)
  else if 400 ≤ status then (false, 0)
  else (false, 0)

/-- What the account loop returns. -/
inductive LoopResult where
  | noCredentials400
  | exhausted503 (lastError : Option String)
  | surfaced (status : Nat)
  | successResponse
  | outOfFuel
deriving Repr, DecidableEq

/-- The `while (true)` account loop of `handleSingleModelChat`: iteration `i`
selects a credential (`attempt i = none` models `getProviderCredentials`
returning null); a failed attempt classified as fallback marks the account
unavailable with the cooldown and continues with it excluded; a fatal error is
surfaced as-is; with no credential the loop returns 400 on the first
iteration and 503 with the last error otherwise.  `fuel` bounds the number of
iterations of this execution. -/
def runAccountLoop (attempt : Nat → Option (String × CoreOut))
    (parseRetry : String → Option Nat) (failCount : Nat) :
    Nat → Nat → List (String × Nat) → Option String → LoopResult × List (String × Nat)
  | 0, _, marked, _ => (.outOfFuel, marked)
  | fuel + 1, i, marked, lastErr =>
      match attempt i with
      | none =>
          if i = 0 then (.noCredentials400, marked)
          else (.exhausted503 lastErr, marked)
      | some (_, .coreSuccess) => (.successResponse, marked)
      | some (cid, .coreFailure status err) =>
          let fb := checkFallbackError parseRetry failCount status err
          if fb.1 then
            runAccountLoop attempt parseRetry failCount fuel (i + 1)
              (marked ++ [(cid, fb.2)]) (some err)
          else (.surfaced status, marked)

/-- C6 (counterexample): a request whose provider has no eligible credential
is answered with status 400 ("No credentials for provider"), not with an auth
error 401/403. -/
theorem C6_no_credentials_400_counterexample :
    runAccountLoop (fun _ => none) (fun _ => none) 0 5 0 [] none =
        (LoopResult.noCredentials400, []) ∧
      ¬(400 = 401 ∨ 400 = 403) := by
  constructor
  · rfl
  · decide

/-- C6 (amended): a request with no eligible credential at the outset is
rejected with status 400; when every attempt fails with a fallback-classified
error (including 401/403 after all refresh attempts failed), each account is
cooldown-marked (30 minutes for 401/403) and, once no account remains, the
request is answered with 503 carrying the last upstream error message
verbatim; a failure the policy classifies as fatal is surfaced with its own
status. -/
theorem C6_auth_error_surface (attempt : Nat → Option (String × CoreOut))
    (parseRetry : String → Option Nat) (failCount : Nat) :
    (∀ fuel marked lastErr, attempt 0 = none →
      runAccountLoop attempt parseRetry failCount (fuel + 1) 0 marked lastErr =
        (.noCredentials400, marked)) ∧
    (∀ fuel cid err, attempt 0 = some (cid, .coreFailure 401 err) →
      attempt 1 = none →
      runAccountLoop attempt parseRetry failCount (fuel + 2) 0 [] none =
        (.exhausted503 (some err), [(cid, 30 * 60 * 1000)])) ∧
    (∀ fuel i marked lastErr cid status err,
      attempt i = some (cid, .coreFailure status err) →
      (checkFallbackError parseRetry failCount status err).1 = false →
      runAccountLoop attempt parseRetry failCount (fuel + 1) i marked lastErr =
        (.surfaced status, marked)) := by
  refine ⟨?_, ?_, ?_⟩
  · intro fuel marked lastErr h0
    simp [runAccountLoop, h0]
  · intro fuel cid err h0 h1
    have hfb : checkFallbackError parseRetry failCount 401 err = (true, 30 * 60 * 1000) := by
      simp [checkFallbackError]
    simp [runAccountLoop, h0, h1, hfb]
  · intro fuel i marked lastErr cid status err hi hfb
    simp [runAccountLoop, hi, hfb]

/-- C6 witness: one account failing 401 after exhausted refreshes, then no
account left: 503 with the error message, after a 30-minute cooldown mark. -/
theorem C6_auth_error_surface_witness :
    runAccountLoop
        (fun i => if i = 0 then some ("conn1", .coreFailure 401 "unauthorized") else none)
        (fun _ => none) 0 5 0 [] none =
      (LoopResult.exhausted503 (some "unauthorized"), [("conn1", 30 * 60 * 1000)]) := by
  exact (C6_auth_error_surface
      (fun i => if i = 0 then some ("conn1", .coreFailure 401 "unauthorized") else none)
      (fun _ => none) 0).2.1 3 "conn1" "unauthorized" rfl rfl



/-! ## Gemini/Antigravity schema sanitizer (`cleanJSONSchemaForAntigravity`,
src/open-sse/translator/helpers/geminiHelper.js)

Each mutating traversal of the source is embedded as a fuel-indexed pure
transform that applies the node's rewrite step and then recurses into the
resulting values, exactly as the JS recursion does after its in-place step.
Exhausted fuel returns the subtree unchanged; every wrapper passes a fuel
bound (the node weight plus a margin) that the actual recursion depth never
reaches, and all theorems about the traversals hold for every fuel. -/

mutual

/-- Node weight; an upper bound for the recursion depth of the traversals
(strings weigh their length because `Object.assign` can spread a string into
one property per character). -/
def Json.w : Json → Nat
  | .null => 0
  | .bool _ => 0
  | .num _ => 0
  | .str s => s.length
  | .arr es => 1 + Json.wList es
  | .obj ms => 1 + Json.wMembers ms

/-- Total weight of array elements. -/
def Json.wList : List Json → Nat
  | [] => 0
  | e :: es => Json.w e + Json.wList es

/-- Total weight of object member values. -/
def Json.wMembers : List (String × Json) → Nat
  | [] => 0
  | (_, v) :: ms => Json.w v + Json.wMembers ms

end

/-- Truthiness of an optional property value (`undefined` is falsy). -/
def jsTruthyOpt (o : Option Json) : Bool :=
  match o with
  | some v => v.truthy
  | none => false

mutual

/-- JS `String(v)` conversion of a JSON value. -/
def jsToString : Json → String
  | .null => "null"
  | .bool true => "true"
  | .bool false => "false"
  | .num n => toString n
  | .str s => s
  | .arr es => String.intercalate "," (jsToStringElems es)
  | .obj _ => "[object Object]"

/-- `Array.prototype.toString` elements: `null` joins as the empty string. -/
def jsToStringElems : List Json → List String
  | [] => []
  | .null :: es => "" :: jsToStringElems es
  | e :: es => jsToString e :: jsToStringElems es

end

/-- `Object.assign(target, source)` member semantics: object members are
copied in order, a string spreads one single-character property per index, an
array one property per index, other primitives contribute nothing. -/
def objAssignMembers (target : List (String × Json)) (source : Json) :
    List (String × Json) :=
  match source with
  | .obj sms => sms.foldl (fun acc kv => aset acc kv.1 kv.2) target
  | .str s =>
      ((s.data.enum).foldl
        (fun acc ci => aset acc (toString ci.1) (.str (String.mk [ci.2]))) target)
  | .arr es =>
      ((es.enum).foldl (fun acc ei => aset acc (toString ei.1) ei.2) target)
  | _ => target

/-- The shared recursion shape of the sanitizer's mutating traversals: apply
the node rewrite step to an object's members, then recurse into the values
(the JS functions recurse into every object-typed value after their in-place
step; on primitives the recursion is vacuous). -/
def stepRecGo (step : List (String × Json) → List (String × Json)) :
    Nat → Json → Json
  | 0, j => j
  | fuel + 1, j =>
      match j with
      | .obj ms => .obj ((step ms).map (fun kv => (kv.1, stepRecGo step fuel kv.2)))
      | .arr es => .arr (es.map (stepRecGo step fuel))
      | other => other

/-- Fuel for the traversal wrappers: the recursion depth from a node is at
most twice its weight plus a constant (a rewrite can wrap a child in one
fresh array or string level), so this bound is never reached. -/
def fuelFor (j : Json) : Nat := 2 * Json.w j + 8

/-- Phase 1a step: `const` → singleton `enum` when `enum` is absent or falsy
(`obj.enum = [obj.const]; delete obj.const`). -/
def constToEnumStep (ms : List (String × Json)) : List (String × Json) :=
  match aget ms "const" with
  | some c =>
      if jsTruthyOpt (aget ms "enum") then ms
      else adel (aset ms "enum" (.arr [c])) "const"
  | none => ms

/-- Phase 1a (`convertConstToEnum`). -/
def convertConstToEnum (j : Json) : Json := stepRecGo constToEnumStep (fuelFor j) j

/-- Phase 1b step: stringify every element of an array-valued `enum`. -/
def enumStringsStep (ms : List (String × Json)) : List (String × Json) :=
  match aget ms "enum" with
  | some (.arr vs) => aset ms "enum" (.arr (vs.map (fun v => .str (jsToString v))))
  | _ => ms

/-- Phase 1b (`convertEnumValuesToStrings`). -/
def convertEnumValuesToStrings (j : Json) : Json :=
  stepRecGo enumStringsStep (fuelFor j) j

/-- Spread of an optional value into a fresh object literal (`{...v}`). -/
def spreadIntoObj (o : Option Json) : List (String × Json) :=
  match o with
  | some v => objAssignMembers [] v
  | none => []

/-- Spread of `obj.required || []` into an array literal: a falsy value gives
`[]`, an array its elements, a string its characters; spreading any other
truthy value throws a TypeError (`none`). -/
def arraySpreadOr (o : Option Json) : Option (List Json) :=
  match o with
  | none => some []
  | some v =>
      if ¬v.truthy then some []
      else
        match v with
        | .arr es => some es
        | .str s => some (s.data.map (fun c => .str (String.mk [c])))
        | _ => none

/-- Phase 2a step (`mergeAllOf` at one node): merge the `properties` and
`required` of the items of an array-valued `allOf` into the node, then drop
the `allOf`. -/
def mergeAllOfStep (ms : List (String × Json)) : Option (List (String × Json)) :=
  match aget ms "allOf" with
  | some (.arr items) =>
      let mergedProps : Option (List (String × Json)) :=
        items.foldl (fun acc item =>
          match Json.get item "properties" with
          | some pv =>
              if pv.truthy then some (objAssignMembers (acc.getD []) pv) else acc
          | none => acc) none
      let mergedReq : Option (List Json) :=
        items.foldl (fun acc item =>
          match Json.get item "required" with
          | some (.arr reqs) =>
              some (reqs.foldl (fun cur r =>
                if cur.any (fun x => jsStrictEq x r) then cur else cur ++ [r])
                (acc.getD []))
          | _ => acc) none
      let ms1 := adel ms "allOf"
      let ms2 :=
        match mergedProps with
        | some mp =>
            aset ms1 "properties"
              (.obj (mp.foldl (fun acc kv => aset acc kv.1 kv.2)
                (spreadIntoObj (aget ms1 "properties"))))
        | none => ms1
      match mergedReq with
      | some mr =>
          match arraySpreadOr (aget ms2 "required") with
          | none => none
          | some oldElems => some (aset ms2 "required" (.arr (oldElems ++ mr)))
      | none => some ms2
  | _ => some ms

/-- Fallible elementwise map over member values (recursion of phase 2a). -/
def mapValuesM (f : Json → Option Json) :
    List (String × Json) → Option (List (String × Json))
  | [] => some []
  | kv :: rest =>
      match f kv.2, mapValuesM f rest with
      | some v, some rs => some ((kv.1, v) :: rs)
      | _, _ => none

/-- Fallible elementwise map over array elements (recursion of phase 2a). -/
def mapElemsM (f : Json → Option Json) : List Json → Option (List Json)
  | [] => some []
  | e :: rest =>
      match f e, mapElemsM f rest with
      | some v, some rs => some (v :: rs)
      | _, _ => none

/-- Phase 2a (`mergeAllOf`): step, then recurse; a thrown TypeError
propagates as `none`. -/
def mergeAllOfGo : Nat → Json → Option Json
  | 0, j => some j
  | fuel + 1, j =>
      match j with
      | .obj ms =>
          match mergeAllOfStep ms with
          | none => none
          | some ms1 => (mapValuesM (mergeAllOfGo fuel) ms1).map Json.obj
      | .arr es => (mapElemsM (mergeAllOfGo fuel) es).map Json.arr
      | other => some other

/-- Wrapper with sufficient fuel. -/
def mergeAllOf (j : Json) : Option Json := mergeAllOfGo (fuelFor j) j

/-- `selectBest` scoring: object (3) > array (2) > non-null scalar (1). -/
def schemaScore (item : Json) : Nat :=
  let t := Json.get item "type"
  if t = some (.str "object") ∨ jsTruthyOpt (Json.get item "properties") then 3
  else if t = some (.str "array") ∨ jsTruthyOpt (Json.get item "items") then 2
  else if jsTruthyOpt t && t ≠ some (.str "null") then 1
  else 0

/-- `selectBest`: first index with the strictly highest score. -/
def selectBest (items : List Json) : Nat :=
  (items.foldl (fun (acc : Nat × Int × Nat) item =>
    if (schemaScore item : Int) > acc.2.1 then (acc.1 + 1, (schemaScore item : Int), acc.1)
    else (acc.1 + 1, acc.2.1, acc.2.2)) (0, -1, 0)).2.2

/-- One combinator rewrite of `flattenAnyOfOneOf`: pick the richest non-null
branch of an array-valued `anyOf`/`oneOf` and assign it over the node. -/
def flattenKeyStep (key : String) (ms : List (String × Json)) :
    List (String × Json) :=
  match aget ms key with
  | some (.arr items) =>
      if items.length > 0 then
        let nonNull := items.filter
          (fun s2 => s2.truthy && (Json.get s2 "type" != some (.str "null")))
        if nonNull.length > 0 then
          objAssignMembers (adel ms key) (nonNull.getD (selectBest nonNull) .null)
        else ms
      else ms
  | _ => ms

/-- Phase 2b (`flattenAnyOfOneOf`): the `anyOf` block, then the `oneOf` block
on the mutated node, then recursion into the values. -/
def flattenAnyOfOneOf (j : Json) : Json :=
  stepRecGo (fun ms => flattenKeyStep "oneOf" (flattenKeyStep "anyOf" ms)) (fuelFor j) j

/-- Phase 2c step: replace an array-valued `type` with its first non-null
entry, or `"string"` when only `"null"` entries exist. -/
def typeArrayStep (ms : List (String × Json)) : List (String × Json) :=
  match aget ms "type" with
  | some (.arr ts) =>
      let nonNull := ts.filter (fun t => t != Json.str "null")
      aset ms "type" (nonNull.getD 0 (.str "string"))
  | _ => ms

/-- Phase 2c (`flattenTypeArrays`). -/
def flattenTypeArrays (j : Json) : Json := stepRecGo typeArrayStep (fuelFor j) j

/-- The unsupported-keyword list of the source, in order. -/
def UNSUPPORTED_SCHEMA_CONSTRAINTS : List String :=
  ["minLength", "maxLength", "exclusiveMinimum", "exclusiveMaximum",
   "pattern", "minItems", "maxItems", "format",
   "default", "examples",
   "$schema", "$defs", "definitions", "const", "$ref",
   "additionalProperties", "propertyNames", "patternProperties",
   "anyOf", "oneOf", "allOf", "not",
   "dependencies", "dependentSchemas", "dependentRequired",
   "title", "if", "then", "else", "contentMediaType", "contentEncoding"]

/-- `s.split(".")` (the dot-splitting of `deleteAtPath`), structurally. -/
def splitDotGo : List Char → List Char → List String
  | [], acc => [String.mk acc.reverse]
  | c :: cs, acc =>
      if c = '.' then String.mk acc.reverse :: splitDotGo cs []
      else splitDotGo cs (c :: acc)

/-- JS `path.split(".")`. -/
def splitDot (s : String) : List String := splitDotGo s.data []

/-- A path is carried as the list of segments its `.`-joined string splits
into; appending an object key appends the key's own dot-split segments
(`${currentPath}.${key}` re-split on `.`). -/
def pushKeySegs (cur : List String) (key : String) : List String :=
  cur ++ splitDot key

/-- Descending into array index `i` appends `[i]` to the final segment
without a dot separator (`${currentPath}[${index}]`). -/
def pushIdxSeg (cur : List String) (i : Nat) : List String :=
  match cur.reverse with
  | [] => ["[" ++ toString i ++ "]"]
  | last :: restRev => ((last ++ "[" ++ toString i ++ "]") :: restRev).reverse

mutual

/-- `walkAndCollectPaths`: every occurrence of the target key, prefix paths
included, in document order. -/
def collectPaths (target : String) : Json → List String → List (List String)
  | .arr es, cur => collectPathsArr target es cur 0
  | .obj ms, cur => collectPathsObj target ms cur
  | _, _ => []

/-- Array part of the walk. -/
def collectPathsArr (target : String) : List Json → List String → Nat → List (List String)
  | [], _, _ => []
  | e :: es, cur, i =>
      collectPaths target e (pushIdxSeg cur i) ++ collectPathsArr target es cur (i + 1)

/-- Object part of the walk: record the path on a key match, then recurse
into the value. -/
def collectPathsObj (target : String) : List (String × Json) → List String → List (List String)
  | [], _ => []
  | (k, v) :: ms, cur =>
      (if k = target then [pushKeySegs cur k] else []) ++
        collectPaths target v (pushKeySegs cur k) ++ collectPathsObj target ms cur

end

/-- Stable insertion keeping longer (deeper) paths first. -/
def insertPathDesc (x : List String) : List (List String) → List (List String)
  | [] => [x]
  | y :: ys => if x.length > y.length then x :: y :: ys else y :: insertPathDesc x ys

/-- The deepest-first stable sort of the source
(`paths.sort((a, b) => b.split(".").length - a.split(".").length)`). -/
def sortPathsDesc (l : List (List String)) : List (List String) :=
  l.foldl (fun acc x => insertPathDesc x acc) []

/-- `delete current[lastKey]`: removal of an object key; a delete with a
non-index key on an array or a primitive is a no-op (keyword names are never
canonical indices). -/
def deleteKeyJS (j : Json) (k : String) : Json :=
  match j with
  | .obj ms => .obj (adel ms k)
  | other => other

/-- Write back a navigated child (`current[part]` was truthy): objects update
the key in place, arrays a canonical index; a string child is an immutable
temporary wrapper, so nothing persists. -/
def setChild (j : Json) (k : String) (newV : Json) : Json :=
  match j with
  | .obj ms => .obj (aset ms k newV)
  | .arr es =>
      match canonIndex k with
      | some n => .arr (es.set n newV)
      | none => j
  | other => other

/-- `deleteAtPath` on pre-split segments: navigate while each part resolves
to a truthy value, then delete the final key. -/
def deleteAtPath (j : Json) : List String → Json
  | [] => j
  | [k] => deleteKeyJS j k
  | k :: rest =>
      match Json.get j k with
      | none => j
      | some v => if ¬v.truthy then j else setChild j k (deleteAtPath v rest)

/-- Phase 3 for one keyword: collect the paths, sort deepest first, delete
each. -/
def removeKeywordPaths (kw : String) (j : Json) : Json :=
  (sortPathsDesc (collectPaths kw j [])).foldl (fun acc p => deleteAtPath acc p) j

/-- Phase 3: every keyword of the unsupported list in order. -/
def removeUnsupportedKeywords (j : Json) : Json :=
  UNSUPPORTED_SCHEMA_CONSTRAINTS.foldl (fun acc kw => removeKeywordPaths kw acc) j

/-- `Object.prototype.hasOwnProperty.call(props, field)` with the field
coerced to a property key by `String(…)`. -/
def hasOwnProp (props : Json) (field : Json) : Bool :=
  let k := jsToString field
  match props with
  | .obj pms => (aget pms k).isSome
  | .str s => k = "length" || (match canonIndex k with
      | some n => n < s.length
      | none => false)
  | .arr es => k = "length" || (match canonIndex k with
      | some n => n < es.length
      | none => false)
  | _ => false

/-- Phase 4 step: prune an array-valued `required` (when `properties` is
truthy) to the fields `properties` actually has, deleting it when empty. -/
def cleanupRequiredStep (ms : List (String × Json)) : List (String × Json) :=
  match aget ms "required", aget ms "properties" with
  | some (.arr reqs), some props =>
      if props.truthy then
        let valid := reqs.filter (fun field => hasOwnProp props field)
        if valid.length = 0 then adel ms "required"
        else aset ms "required" (.arr valid)
      else ms
  | _, _ => ms

/-- Phase 4 (`cleanupRequired`). -/
def cleanupRequired (j : Json) : Json := stepRecGo cleanupRequiredStep (fuelFor j) j

/-- The placeholder property injected into empty object schemas. -/
def placeholderProps : Json :=
  .obj [("reason", .obj [("type", .str "string"),
    ("description", .str "Brief explanation of why you are calling this tool")])]

/-- Number of own enumerable keys (`Object.keys(v).length`). -/
def objKeysCount : Json → Nat
  | .obj ms => ms.length
  | .str s => s.length
  | .arr es => es.length
  | _ => 0

/-- Phase 5 step: an object-typed node with missing, falsy or empty
`properties` receives the `reason` placeholder and `required: ["reason"]`. -/
def addPlaceholdersStep (ms : List (String × Json)) : List (String × Json) :=
  if aget ms "type" = some (.str "object") then
    let propsEmpty :=
      match aget ms "properties" with
      | none => true
      | some p => if ¬p.truthy then true else objKeysCount p = 0
    if propsEmpty then
      aset (aset ms "properties" placeholderProps) "required" (.arr [.str "reason"])
    else ms
  else ms

/-- Phase 5 (`addPlaceholders`). -/
def addPlaceholders (j : Json) : Json := stepRecGo addPlaceholdersStep (fuelFor j) j

/-- `cleanJSONSchemaForAntigravity`: non-objects are returned unchanged; the
deep clone (`JSON.parse(JSON.stringify(schema))`) is the identity on the
value tree; then the five phases run in order.  `none` models a thrown
TypeError (only `mergeAllOf` can throw). -/
def cleanJSONSchemaForAntigravity (schema : Json) : Option Json :=
  match schema with
  | .obj ms =>
      (mergeAllOf (convertEnumValuesToStrings (convertConstToEnum (.obj ms)))).map
        (fun c3 => addPlaceholders (cleanupRequired (removeUnsupportedKeywords
          (flattenTypeArrays (flattenAnyOfOneOf c3)))))
  | .arr es =>
      (mergeAllOf (convertEnumValuesToStrings (convertConstToEnum (.arr es)))).map
        (fun c3 => addPlaceholders (cleanupRequired (removeUnsupportedKeywords
          (flattenTypeArrays (flattenAnyOfOneOf c3)))))
  | other => some other



/-! ### The sanitized fixed-point class

A schema is *sanitized* when every rewrite step of the sanitizer is the
identity at every node: no member key is an unsupported keyword (so phases
1a, 2a, 2b and 3 find nothing to do), `enum` arrays hold only strings,
`type` is never an array, a truthy `properties` next to an array `required`
already lists only own properties of `properties` and is nonempty, and an
`"object"`-typed node has a truthy nonempty `properties`. -/

/-- `enum` member values must be arrays of strings (or not arrays at all). -/
def enumOK : Json → Bool
  | .arr vs => vs.all (fun v => match v with | .str _ => true | _ => false)
  | _ => true

/-- `type` member values must not be arrays. -/
def typeOK : Json → Bool
  | .arr _ => false
  | _ => true

/-- Per-member key discipline of a sanitized object node. -/
def memberKeyOK (kv : String × Json) : Bool :=
  !(UNSUPPORTED_SCHEMA_CONSTRAINTS.contains kv.1) &&
    (if kv.1 = "enum" then enumOK kv.2 else true) &&
    (if kv.1 = "type" then typeOK kv.2 else true)

/-- The `required` list (when next to a truthy `properties`) is nonempty and
lists only own properties, so phase 4 leaves it alone. -/
def requiredOK (ms : List (String × Json)) : Bool :=
  match aget ms "required", aget ms "properties" with
  | some (.arr reqs), some props =>
      if props.truthy then
        !reqs.isEmpty && reqs.all (fun r => hasOwnProp props r)
      else true
  | _, _ => true

/-- An `"object"`-typed node has a truthy, nonempty `properties`, so phase 5
injects nothing. -/
def placeholderOK (ms : List (String × Json)) : Bool :=
  if aget ms "type" = some (.str "object") then
    match aget ms "properties" with
    | some p => p.truthy && objKeysCount p != 0
    | none => false
  else true

/-- Node-local sanitized condition of an object node. -/
def sanitizedStep (ms : List (String × Json)) : Bool :=
  ms.all memberKeyOK && requiredOK ms && placeholderOK ms

mutual

/-- A fully sanitized value: the node-local condition at every object node,
arrays and values recursively. -/
def sanitizedJson : Json → Bool
  | .obj ms => sanitizedStep ms && sanitizedMembers ms
  | .arr es => sanitizedList es
  | _ => true

/-- Sanitized condition of array elements. -/
def sanitizedList : List Json → Bool
  | [] => true
  | e :: es => sanitizedJson e && sanitizedList es

/-- Sanitized condition of member values. -/
def sanitizedMembers : List (String × Json) → Bool
  | [] => true
  | kv :: ms => sanitizedJson kv.2 && sanitizedMembers ms

end



/-- Writing back the value a key already holds changes nothing. -/
theorem aset_of_aget {α : Type} :
    ∀ (ms : List (String × α)) (k : String) (v : α),
      aget ms k = some v → aset ms k v = ms
  | [], k, v => by simp [aget]
  | (k2, v2) :: rest, k, v => by
      by_cases h : k2 = k
      · intro hget
        simp [aget, h] at hget
        simp [aset, h, hget]
      · intro hget
        simp [aget, h] at hget
        simp [aset, h, aset_of_aget rest k v hget]

/-- A successful lookup returns a member of the list. -/
theorem aget_mem {α : Type} :
    ∀ (ms : List (String × α)) (k : String) (v : α),
      aget ms k = some v → (k, v) ∈ ms
  | [], k, v => by simp [aget]
  | (k2, v2) :: rest, k, v => by
      by_cases h : k2 = k
      · intro hget
        simp [aget, h] at hget
        simp [h, hget]
      · intro hget
        simp [aget, h] at hget
        exact List.mem_cons_of_mem _ (aget_mem rest k v hget)

/-- No member key of a sanitized node is an unsupported keyword. -/
theorem key_not_unsupported {ms : List (String × Json)}
    (h : ms.all memberKeyOK = true) {kv : String × Json} (hm : kv ∈ ms) :
    kv.1 ∉ UNSUPPORTED_SCHEMA_CONSTRAINTS := by
  have h1 := List.all_eq_true.mp h kv hm
  simp [memberKeyOK] at h1
  exact h1.1.1

/-- Unsupported keywords are absent from a sanitized node. -/
theorem aget_unsupported_none {ms : List (String × Json)}
    (h : ms.all memberKeyOK = true) {k : String}
    (hk : k ∈ UNSUPPORTED_SCHEMA_CONSTRAINTS) : aget ms k = none := by
  induction ms with
  | nil => rfl
  | cons kv rest ih =>
      have hne : ¬ kv.1 = k := fun e =>
        key_not_unsupported h (List.mem_cons_self kv rest) (e ▸ hk)
      have htail : rest.all memberKeyOK = true := by
        rw [List.all_eq_true] at h ⊢
        exact fun kv hkv => h kv (List.mem_cons_of_mem _ hkv)
      cases kv with
      | mk k2 v2 => simpa [aget, hne] using ih htail



/-- `const` is unsupported, so a sanitized node has none and phase 1a's step
is the identity. -/
theorem constToEnumStep_id {ms : List (String × Json)}
    (hall : ms.all memberKeyOK = true) : constToEnumStep ms = ms := by
  unfold constToEnumStep
  rw [aget_unsupported_none hall (show "const" ∈ UNSUPPORTED_SCHEMA_CONSTRAINTS by decide)]

/-- Stringification is the identity on a list of strings. -/
theorem enum_map_id :
    ∀ (vs : List Json),
      vs.all (fun v => match v with | .str _ => true | _ => false) = true →
      vs.map (fun v => Json.str (jsToString v)) = vs
  | [], _ => rfl
  | e :: es, h => by
      simp only [List.all_cons, Bool.and_eq_true] at h
      cases e <;> simp_all [jsToString, enum_map_id es h.2]

/-- Phase 1b's step is the identity on a sanitized node: its `enum` (if an
array) holds only strings. -/
theorem enumStringsStep_id {ms : List (String × Json)}
    (hall : ms.all memberKeyOK = true) : enumStringsStep ms = ms := by
  cases hget : aget ms "enum" with
  | none => simp [enumStringsStep, hget]
  | some v =>
      cases v with
      | arr vs =>
          have h1 := List.all_eq_true.mp hall _ (aget_mem ms "enum" _ hget)
          simp only [memberKeyOK, Bool.and_eq_true] at h1
          have hok : enumOK (Json.arr vs) = true := by
            have h2 := h1.1.2
            simpa using h2
          unfold enumStringsStep
          rw [hget]
          change aset ms "enum" (Json.arr (vs.map (fun v => Json.str (jsToString v)))) = ms
          rw [enum_map_id vs (by simpa [enumOK] using hok)]
          exact aset_of_aget _ _ _ hget
      | null => simp [enumStringsStep, hget]
      | bool b => simp [enumStringsStep, hget]
      | num n => simp [enumStringsStep, hget]
      | str s2 => simp [enumStringsStep, hget]
      | obj ms2 => simp [enumStringsStep, hget]

/-- `allOf` is unsupported, so phase 2a's step returns a sanitized node
unchanged (and throws nothing). -/
theorem mergeAllOfStep_id {ms : List (String × Json)}
    (hall : ms.all memberKeyOK = true) : mergeAllOfStep ms = some ms := by
  unfold mergeAllOfStep
  rw [aget_unsupported_none hall (show "allOf" ∈ UNSUPPORTED_SCHEMA_CONSTRAINTS by decide)]

/-- `anyOf` and `oneOf` are unsupported, so phase 2b's steps are the
identity on a sanitized node. -/
theorem flattenKeyStep_id {k : String} {ms : List (String × Json)}
    (hall : ms.all memberKeyOK = true)
    (hk : k ∈ UNSUPPORTED_SCHEMA_CONSTRAINTS) : flattenKeyStep k ms = ms := by
  unfold flattenKeyStep
  rw [aget_unsupported_none hall hk]

/-- Phase 2c's step is the identity on a sanitized node: `type` is never an
array. -/
theorem typeArrayStep_id {ms : List (String × Json)}
    (hall : ms.all memberKeyOK = true) : typeArrayStep ms = ms := by
  cases hget : aget ms "type" with
  | none => simp [typeArrayStep, hget]
  | some v =>
      cases v with
      | arr ts =>
          have h1 := List.all_eq_true.mp hall _ (aget_mem ms "type" _ hget)
          simp only [memberKeyOK, Bool.and_eq_true] at h1
          have h2 := h1.2
          simp [typeOK] at h2
      | null => simp [typeArrayStep, hget]
      | bool b => simp [typeArrayStep, hget]
      | num n => simp [typeArrayStep, hget]
      | str s2 => simp [typeArrayStep, hget]
      | obj ms2 => simp [typeArrayStep, hget]

/-- Phase 4's step is the identity on a sanitized node: any array `required`
next to a truthy `properties` is nonempty and already pruned. -/
theorem cleanupRequiredStep_id {ms : List (String × Json)}
    (hreq : requiredOK ms = true) : cleanupRequiredStep ms = ms := by
  cases hr : aget ms "required" with
  | none => simp [cleanupRequiredStep, hr]
  | some v1 =>
      cases hp : aget ms "properties" with
      | none =>
          cases v1 <;> simp [cleanupRequiredStep, hr, hp]
      | some props =>
          cases v1 with
          | arr reqs =>
              unfold requiredOK at hreq
              rw [hr, hp] at hreq
              unfold cleanupRequiredStep
              rw [hr, hp]
              change (if props.truthy = true then
                  (!reqs.isEmpty && reqs.all fun r => hasOwnProp props r)
                else true) = true at hreq
              change (if props.truthy = true then
                  (let valid := reqs.filter (fun field => hasOwnProp props field)
                   if valid.length = 0 then adel ms "required"
                   else aset ms "required" (Json.arr valid))
                else ms) = ms
              by_cases ht : props.truthy = true
              · rw [if_pos ht] at hreq ⊢
                simp only [Bool.and_eq_true, List.all_eq_true] at hreq
                have hfilter :
                    reqs.filter (fun field => hasOwnProp props field) = reqs :=
                  List.filter_eq_self.mpr (fun a ha => hreq.2 a ha)
                dsimp only
                rw [hfilter]
                have hlen : ¬ reqs.length = 0 := by
                  cases reqs with
                  | nil => simp [List.isEmpty] at hreq
                  | cons a l => simp
                rw [if_neg hlen]
                exact aset_of_aget _ _ _ hr
              · have ht2 : props.truthy = false := by
                  cases hb : props.truthy
                  · rfl
                  · exact absurd hb ht
                rw [if_neg ht]
          | null => simp [cleanupRequiredStep, hr, hp]
          | bool b => simp [cleanupRequiredStep, hr, hp]
          | num n => simp [cleanupRequiredStep, hr, hp]
          | str s2 => simp [cleanupRequiredStep, hr, hp]
          | obj ms2 => simp [cleanupRequiredStep, hr, hp]

/-- Phase 5's step is the identity on a sanitized node: an `"object"`-typed
node already has a truthy nonempty `properties`. -/
theorem addPlaceholdersStep_id {ms : List (String × Json)}
    (hph : placeholderOK ms = true) : addPlaceholdersStep ms = ms := by
  unfold addPlaceholdersStep
  by_cases ht : aget ms "type" = some (Json.str "object")
  · rw [if_pos ht]
    unfold placeholderOK at hph
    rw [if_pos ht] at hph
    cases hp : aget ms "properties" with
    | none => rw [hp] at hph; simp at hph
    | some p =>
        rw [hp] at hph
        simp only [Bool.and_eq_true, bne_iff_ne, ne_eq] at hph
        simp [hp, hph.1, hph.2]
  · rw [if_neg ht]



/-- A step-then-recurse traversal whose step fixes every sanitized node
fixes every sanitized value, at every fuel. -/
theorem stepRecGo_id (step : List (String × Json) → List (String × Json))
    (hstep : ∀ ms, sanitizedStep ms = true → step ms = ms) :
    ∀ (fuel : Nat) (j : Json), sanitizedJson j = true → stepRecGo step fuel j = j := by
  intro fuel
  induction fuel with
  | zero => intro j _; rfl
  | succ fuel ih =>
      have hmap : ∀ (l : List (String × Json)), sanitizedMembers l = true →
          l.map (fun kv => (kv.1, stepRecGo step fuel kv.2)) = l := by
        intro l
        induction l with
        | nil => intro _; rfl
        | cons kv rest ihm =>
            intro hl
            simp only [sanitizedMembers, Bool.and_eq_true] at hl
            simp [ih kv.2 hl.1, ihm hl.2]
      have hmapl : ∀ (l : List Json), sanitizedList l = true →
          l.map (stepRecGo step fuel) = l := by
        intro l
        induction l with
        | nil => intro _; rfl
        | cons e rest ihm =>
            intro hl
            simp only [sanitizedList, Bool.and_eq_true] at hl
            simp [ih e hl.1, ihm hl.2]
      intro j h
      cases j with
      | obj ms =>
          simp only [sanitizedJson, Bool.and_eq_true] at h
          show Json.obj ((step ms).map (fun kv => (kv.1, stepRecGo step fuel kv.2))) =
            Json.obj ms
          rw [hstep ms h.1, hmap ms h.2]
      | arr es =>
          simp only [sanitizedJson] at h
          show Json.arr (es.map (stepRecGo step fuel)) = Json.arr es
          rw [hmapl es h]
      | null => rfl
      | bool b => rfl
      | num n => rfl
      | str s2 => rfl

/-- Phase 2a returns a sanitized value unchanged and never throws, at every
fuel. -/
theorem mergeAllOfGo_sanitized :
    ∀ (fuel : Nat) (j : Json), sanitizedJson j = true → mergeAllOfGo fuel j = some j := by
  intro fuel
  induction fuel with
  | zero => intro j _; rfl
  | succ fuel ih =>
      have hmap : ∀ (l : List (String × Json)), sanitizedMembers l = true →
          mapValuesM (mergeAllOfGo fuel) l = some l := by
        intro l
        induction l with
        | nil => intro _; rfl
        | cons kv rest ihm =>
            intro hl
            simp only [sanitizedMembers, Bool.and_eq_true] at hl
            simp [mapValuesM, ih kv.2 hl.1, ihm hl.2]
      have hmapl : ∀ (l : List Json), sanitizedList l = true →
          mapElemsM (mergeAllOfGo fuel) l = some l := by
        intro l
        induction l with
        | nil => intro _; rfl
        | cons e rest ihm =>
            intro hl
            simp only [sanitizedList, Bool.and_eq_true] at hl
            simp [mapElemsM, ih e hl.1, ihm hl.2]
      intro j h
      cases j with
      | obj ms =>
          simp only [sanitizedJson, Bool.and_eq_true] at h
          have hall : ms.all memberKeyOK = true := by
            have hs := h.1
            simp only [sanitizedStep, Bool.and_eq_true] at hs
            exact hs.1.1
          show (match mergeAllOfStep ms with
            | none => none
            | some ms1 => (mapValuesM (mergeAllOfGo fuel) ms1).map Json.obj) =
            some (Json.obj ms)
          rw [mergeAllOfStep_id hall]
          change (mapValuesM (mergeAllOfGo fuel) ms).map Json.obj = some (Json.obj ms)
          rw [hmap ms h.2]
          rfl
      | arr es =>
          show (mapElemsM (mergeAllOfGo fuel) es).map Json.arr = some (Json.arr es)
          rw [hmapl es (by simpa [sanitizedJson] using h)]
          rfl
      | null => rfl
      | bool b => rfl
      | num n => rfl
      | str s2 => rfl

mutual

/-- The phase-3 walk finds no occurrence of an unsupported keyword in a
sanitized value. -/
theorem collectPaths_sanitized (kw : String)
    (hkw : kw ∈ UNSUPPORTED_SCHEMA_CONSTRAINTS) :
    ∀ (j : Json) (cur : List String), sanitizedJson j = true →
      collectPaths kw j cur = []
  | .null, cur => fun _ => rfl
  | .bool b, cur => fun _ => rfl
  | .num n, cur => fun _ => rfl
  | .str s2, cur => fun _ => rfl
  | .arr es, cur => fun h =>
      collectPathsArr_sanitized kw hkw es cur 0 (by simpa [sanitizedJson] using h)
  | .obj ms, cur => fun h => by
      simp only [sanitizedJson, Bool.and_eq_true] at h
      have hall : ms.all memberKeyOK = true := by
        have hs := h.1
        simp only [sanitizedStep, Bool.and_eq_true] at hs
        exact hs.1.1
      exact collectPathsObj_sanitized kw hkw ms cur hall h.2

/-- Array part of the keyword walk on sanitized elements. -/
theorem collectPathsArr_sanitized (kw : String)
    (hkw : kw ∈ UNSUPPORTED_SCHEMA_CONSTRAINTS) :
    ∀ (es : List Json) (cur : List String) (i : Nat), sanitizedList es = true →
      collectPathsArr kw es cur i = []
  | [], cur, i => fun _ => rfl
  | e :: es, cur, i => fun h => by
      simp only [sanitizedList, Bool.and_eq_true] at h
      simp [collectPathsArr, collectPaths_sanitized kw hkw e _ h.1,
        collectPathsArr_sanitized kw hkw es cur (i + 1) h.2]

/-- Object part of the keyword walk on sanitized members. -/
theorem collectPathsObj_sanitized (kw : String)
    (hkw : kw ∈ UNSUPPORTED_SCHEMA_CONSTRAINTS) :
    ∀ (ms : List (String × Json)) (cur : List String), ms.all memberKeyOK = true →
      sanitizedMembers ms = true → collectPathsObj kw ms cur = []
  | [], cur => fun _ _ => rfl
  | (k, v) :: ms, cur => fun hall hmem => by
      simp only [sanitizedMembers, Bool.and_eq_true] at hmem
      have hk : ¬ k = kw := fun e =>
        key_not_unsupported hall (List.mem_cons_self _ _) (by simpa [e] using hkw)
      have htail : ms.all memberKeyOK = true := by
        rw [List.all_eq_true] at hall ⊢
        exact fun kv hkv => hall kv (List.mem_cons_of_mem _ hkv)
      simp [collectPathsObj, hk, collectPaths_sanitized kw hkw v _ hmem.1,
        collectPathsObj_sanitized kw hkw ms cur htail hmem.2]

end

/-- Phase 3 for one unsupported keyword fixes a sanitized value. -/
theorem removeKeywordPaths_id {kw : String}
    (hkw : kw ∈ UNSUPPORTED_SCHEMA_CONSTRAINTS) {j : Json}
    (h : sanitizedJson j = true) : removeKeywordPaths kw j = j := by
  unfold removeKeywordPaths
  rw [collectPaths_sanitized kw hkw j [] h]
  rfl

/-- Phase 3 fixes a sanitized value. -/
theorem removeUnsupportedKeywords_sanitized {j : Json}
    (h : sanitizedJson j = true) : removeUnsupportedKeywords j = j := by
  unfold removeUnsupportedKeywords
  have hfold : ∀ (l : List String), (∀ kw ∈ l, kw ∈ UNSUPPORTED_SCHEMA_CONSTRAINTS) →
      l.foldl (fun acc kw => removeKeywordPaths kw acc) j = j := by
    intro l
    induction l with
    | nil => intro _; rfl
    | cons kw rest ihl =>
        intro hsub
        rw [List.foldl_cons, removeKeywordPaths_id (hsub kw (by simp)) h]
        exact ihl (fun a ha => hsub a (List.mem_cons_of_mem _ ha))
  exact hfold _ (fun kw hkw => hkw)

/-- Phase 1a fixes a sanitized value. -/
theorem convertConstToEnum_sanitized {j : Json} (h : sanitizedJson j = true) :
    convertConstToEnum j = j :=
  stepRecGo_id constToEnumStep
    (fun ms hs => constToEnumStep_id (by
      simp only [sanitizedStep, Bool.and_eq_true] at hs; exact hs.1.1)) _ j h

/-- Phase 1b fixes a sanitized value. -/
theorem convertEnumValuesToStrings_sanitized {j : Json}
    (h : sanitizedJson j = true) : convertEnumValuesToStrings j = j :=
  stepRecGo_id enumStringsStep
    (fun ms hs => enumStringsStep_id (by
      simp only [sanitizedStep, Bool.and_eq_true] at hs; exact hs.1.1)) _ j h

/-- Phase 2a fixes a sanitized value. -/
theorem mergeAllOf_sanitized {j : Json} (h : sanitizedJson j = true) :
    mergeAllOf j = some j :=
  mergeAllOfGo_sanitized _ j h

/-- Phase 2b fixes a sanitized value. -/
theorem flattenAnyOfOneOf_sanitized {j : Json} (h : sanitizedJson j = true) :
    flattenAnyOfOneOf j = j :=
  stepRecGo_id _
    (fun ms hs => by
      have hall : ms.all memberKeyOK = true := by
        simp only [sanitizedStep, Bool.and_eq_true] at hs; exact hs.1.1
      rw [flattenKeyStep_id hall
          (show "anyOf" ∈ UNSUPPORTED_SCHEMA_CONSTRAINTS by decide),
        flattenKeyStep_id hall
          (show "oneOf" ∈ UNSUPPORTED_SCHEMA_CONSTRAINTS by decide)]) _ j h

/-- Phase 2c fixes a sanitized value. -/
theorem flattenTypeArrays_sanitized {j : Json} (h : sanitizedJson j = true) :
    flattenTypeArrays j = j :=
  stepRecGo_id typeArrayStep
    (fun ms hs => typeArrayStep_id (by
      simp only [sanitizedStep, Bool.and_eq_true] at hs; exact hs.1.1)) _ j h

/-- Phase 4 fixes a sanitized value. -/
theorem cleanupRequired_sanitized {j : Json} (h : sanitizedJson j = true) :
    cleanupRequired j = j :=
  stepRecGo_id cleanupRequiredStep
    (fun ms hs => cleanupRequiredStep_id (by
      simp only [sanitizedStep, Bool.and_eq_true] at hs; exact hs.1.2)) _ j h

/-- Phase 5 fixes a sanitized value. -/
theorem addPlaceholders_sanitized {j : Json} (h : sanitizedJson j = true) :
    addPlaceholders j = j :=
  stepRecGo_id addPlaceholdersStep
    (fun ms hs => addPlaceholdersStep_id (by
      simp only [sanitizedStep, Bool.and_eq_true] at hs; exact hs.2)) _ j h

/-- A sanitized value is a fixed point of the whole sanitizer. -/
theorem clean_sanitized {j : Json} (h : sanitizedJson j = true) :
    cleanJSONSchemaForAntigravity j = some j := by
  cases j with
  | obj ms =>
      show (mergeAllOf (convertEnumValuesToStrings (convertConstToEnum (Json.obj ms)))).map
        (fun c3 => addPlaceholders (cleanupRequired (removeUnsupportedKeywords
          (flattenTypeArrays (flattenAnyOfOneOf c3))))) = some (Json.obj ms)
      rw [convertConstToEnum_sanitized h, convertEnumValuesToStrings_sanitized h,
        mergeAllOf_sanitized h, Option.map_some', flattenAnyOfOneOf_sanitized h,
        flattenTypeArrays_sanitized h, removeUnsupportedKeywords_sanitized h,
        cleanupRequired_sanitized h, addPlaceholders_sanitized h]
  | arr es =>
      show (mergeAllOf (convertEnumValuesToStrings (convertConstToEnum (Json.arr es)))).map
        (fun c3 => addPlaceholders (cleanupRequired (removeUnsupportedKeywords
          (flattenTypeArrays (flattenAnyOfOneOf c3))))) = some (Json.arr es)
      rw [convertConstToEnum_sanitized h, convertEnumValuesToStrings_sanitized h,
        mergeAllOf_sanitized h, Option.map_some', flattenAnyOfOneOf_sanitized h,
        flattenTypeArrays_sanitized h, removeUnsupportedKeywords_sanitized h,
        cleanupRequired_sanitized h, addPlaceholders_sanitized h]
  | null => rfl
  | bool b => rfl
  | num n => rfl
  | str s2 => rfl



/-- C2: refuted as stated and contradicting the code's own documented intent
("Remove all unsupported keywords at ALL levels"): `walkAndCollectPaths`
records an array step as `parent[i]`, but `deleteAtPath` splits the joined
path on `"."` only, so `parent[i]` is looked up as a single (absent) object
key and the deletion silently misses. `"pattern"` is in the unsupported
list, yet the sanitizer returns a schema with `pattern` nested under an
array element completely unchanged. -/
theorem C2_unsupported_keyword_survives_arrays :
    "pattern" ∈ UNSUPPORTED_SCHEMA_CONSTRAINTS ∧
      cleanJSONSchemaForAntigravity
        (Json.obj [("items", Json.arr [Json.obj [("pattern", Json.str "x")]])]) =
        some (Json.obj [("items", Json.arr [Json.obj [("pattern", Json.str "x")]])]) := by
  decide

/-- C3 counterexample: the sanitizer is not idempotent. On
`{items:[{anyOf:[{anyOf:[{type:"string"}]}]}]}` the first run flattens the
outer `anyOf` into a node that again carries an `anyOf` (recreated by
`Object.assign`), which phase 3 cannot delete under the array (see C2); the
second run flattens it further, so running twice differs from running
once. -/
theorem C3_sanitizer_not_idempotent_counterexample :
    (cleanJSONSchemaForAntigravity
        (Json.obj [("items", Json.arr [Json.obj [("anyOf", Json.arr [Json.obj
          [("anyOf", Json.arr [Json.obj [("type", Json.str "string")]])]])]])])).bind
      cleanJSONSchemaForAntigravity ≠
    cleanJSONSchemaForAntigravity
      (Json.obj [("items", Json.arr [Json.obj [("anyOf", Json.arr [Json.obj
        [("anyOf", Json.arr [Json.obj [("type", Json.str "string")]])]])]])]) := by
  decide

/-- C3: idempotence as claimed fails (see the counterexample); the corrected
property is that every sanitized value — no unsupported keyword at any
depth, string-only `enum` arrays, no `type` arrays, `required` nonempty and
pruned wherever `properties` is truthy, and object-typed nodes with nonempty
`properties` — is a fixed point of the sanitizer, so a second application
changes nothing whenever the first run's output lands in this class (a
sufficient condition only: other fixed points exist, e.g. the C2 schema the
sanitizer cannot touch). -/
theorem C3_sanitizer_idempotent_on_sanitized (j : Json)
    (h : sanitizedJson j = true) :
    cleanJSONSchemaForAntigravity j = some j ∧
      (cleanJSONSchemaForAntigravity j).bind cleanJSONSchemaForAntigravity =
        cleanJSONSchemaForAntigravity j := by
  have hfix := clean_sanitized h
  refine ⟨hfix, ?_⟩
  rw [hfix]
  exact hfix

/-- Witness: the sanitized schema `{type:"string"}` is a fixed point and the
double run equals the single run on it. -/
theorem C3_sanitizer_idempotent_on_sanitized_witness :
    sanitizedJson (Json.obj [("type", Json.str "string")]) = true ∧
      (cleanJSONSchemaForAntigravity (Json.obj [("type", Json.str "string")]) =
          some (Json.obj [("type", Json.str "string")]) ∧
        (cleanJSONSchemaForAntigravity
            (Json.obj [("type", Json.str "string")])).bind
            cleanJSONSchemaForAntigravity =
          cleanJSONSchemaForAntigravity (Json.obj [("type", Json.str "string")])) :=
  ⟨by decide, C3_sanitizer_idempotent_on_sanitized _ (by decide)⟩


end NineRouter
